import Mathlib

/-!
Verification development for the casper-node core subsystems: the auction
state machine's unbonding logic, the genesis/upgrade installer, the Highway
consensus core, and the linear-chain finality-signature handling.

Keys, hashes, public keys and purse identifiers are embedded as natural
numbers; ordered maps are embedded as association lists.
-/

/-- Association-list lookup keyed by natural numbers. -/
def lookupA {α : Type} : List (Nat × α) → Nat → Option α
  | [], _ => none
  | (k, v) :: rest, key => if k = key then some v else lookupA rest key

/-- Association-list update: replaces the value at the key, or appends the
binding when the key is absent (matching map-insert semantics). -/
def setA {α : Type} : List (Nat × α) → Nat → α → List (Nat × α)
  | [], key, v => [(key, v)]
  | (k, w) :: rest, key, v =>
    if k = key then (k, v) :: rest else (k, w) :: setA rest key v

theorem lookupA_setA_self {α : Type} (m : List (Nat × α)) (k : Nat) (v : α) :
    lookupA (setA m k v) k = some v := by
  induction m with
  | nil => simp [setA, lookupA]
  | cons hd tl ih =>
    obtain ⟨k0, w⟩ := hd
    by_cases h : k0 = k
    · simp [setA, lookupA, h]
    · simp [setA, lookupA, h, ih]

theorem lookupA_setA_other {α : Type} (m : List (Nat × α)) (k k2 : Nat) (v : α)
    (h : k ≠ k2) : lookupA (setA m k v) k2 = lookupA m k2 := by
  induction m with
  | nil => simp [setA, lookupA, h]
  | cons hd tl ih =>
    obtain ⟨k0, w⟩ := hd
    by_cases h0 : k0 = k
    · subst h0
      simp [setA, lookupA, h]
    · simp [setA, lookupA, h0, ih]

namespace Auction

/-- Auction error codes from the closed auction error enum (the subset
reachable from the unbonding functions in detail.rs). -/
inductive AError where
  | invalidCaller
  | unbondTooLarge
  | transferToUnbondingPurse
deriving DecidableEq, Repr

/-- UnbondingPurse as in casper-types: bonding purse, validator key,
unbonder key, era of creation and amount. -/
structure UnbondingPurse where
  bondingPurse : Nat
  validatorPublicKey : Nat
  unbonderPublicKey : Nat
  eraOfCreation : Nat
  amount : Nat
deriving DecidableEq, Repr

/-- Modelled from the spec: AccountHash is derived deterministically from a
public key (the derivation itself is outside the excerpt); embedded as an
injection on the numeric key space. -/
def accountHashFromPublicKey (pk : Nat) : Nat := pk

/-- Modelled from the spec: the system account address is the all-zero
AccountHash, embedded as 0. -/
def SYSTEM_ACCOUNT : Nat := 0

/-- UnbondingPurses map: validator public key to its unbonding list. -/
abbrev UnbondingPurses := List (Nat × List UnbondingPurse)

/-- The auction provider state visible to detail.rs: the caller, the stored
era id, unbonding delay and unbonding-purses map, the mint's purse balances,
account main-purse balances, and the journal of mint transfers performed. -/
structure AuctionState where
  caller : Nat
  eraId : Nat
  unbondingDelay : Nat
  unbondingPurses : UnbondingPurses
  purseBalances : List (Nat × Nat)
  accountBalances : List (Nat × Nat)
  transfers : List (Nat × Nat × Nat)
deriving DecidableEq, Repr

/-- Mint transfer from a purse to an account's main purse: fails when the
source purse is missing or underfunded, otherwise debits the purse, credits
the account and records the transfer. -/
def transferPurseToAccount (s : AuctionState) (purse account amount : Nat) :
    Option AuctionState :=
  match lookupA s.purseBalances purse with
  | none => none
  | some bal =>
    if bal < amount then none
    else
      some { s with
        purseBalances := setA s.purseBalances purse (bal - amount)
        accountBalances :=
          setA s.accountBalances account
            ((lookupA s.accountBalances account).getD 0 + amount)
        transfers := s.transfers ++ [(purse, account, amount)] }

/-- Inner loop of process_unbond_requests over one validator's unbonding
list: matured purses are paid out through the mint, unmatured ones are kept
in order. -/
def processPurseList (eraId delay : Nat) :
    AuctionState → List UnbondingPurse →
    Except AError (AuctionState × List UnbondingPurse)
  | s, [] => .ok (s, [])
  | s, up :: rest =>
    if up.eraOfCreation + delay ≤ eraId then
      -- current_era_id >= era_of_creation + unbonding_delay in detail.rs
      match transferPurseToAccount s up.bondingPurse
          (accountHashFromPublicKey up.unbonderPublicKey) up.amount with
      | none => .error .transferToUnbondingPurse
      | some s2 => processPurseList eraId delay s2 rest
    else
      match processPurseList eraId delay s rest with
      | .error e => .error e
      | .ok (s2, l) => .ok (s2, up :: l)

/-- Outer loop of process_unbond_requests over the validators of the
unbonding-purses map. -/
def processValidators (eraId delay : Nat) :
    AuctionState → UnbondingPurses →
    Except AError (AuctionState × UnbondingPurses)
  | s, [] => .ok (s, [])
  | s, (k, l) :: rest =>
    match processPurseList eraId delay s l with
    | .error e => .error e
    | .ok (s2, l2) =>
      match processValidators eraId delay s2 rest with
      | .error e => .error e
      | .ok (s3, m) => .ok (s3, (k, l2) :: m)

/-- The process_unbond_requests system call from detail.rs: rejects
non-system callers, pays out every matured unbonding purse, keeps unmatured
ones, prunes validators whose list became empty, and writes the map back. -/
def processUnbondRequests (s : AuctionState) : Except AError AuctionState :=
  if s.caller ≠ SYSTEM_ACCOUNT then .error .invalidCaller
  else
    match processValidators s.eraId s.unbondingDelay s s.unbondingPurses with
    | .error e => .error e
    | .ok (s2, m) =>
      .ok { s2 with unbondingPurses := m.filter (fun kv => ! kv.2.isEmpty) }

/-- Maturity test of the specification: a purse is matured once the current
era has reached its creation era plus the unbonding delay. -/
def matured (eraId delay : Nat) (up : UnbondingPurse) : Bool :=
  decide (up.eraOfCreation + delay ≤ eraId)

/-- Specification-side description of the written-back map: each validator
keeps exactly its unmatured purses, and empty entries are pruned. -/
def expectedUnbondingPurses (eraId delay : Nat) (m : UnbondingPurses) :
    UnbondingPurses :=
  (m.map (fun kv => (kv.1, kv.2.filter (fun up => ! matured eraId delay up)))).filter
    (fun kv => ! kv.2.isEmpty)

/-- Specification-side description of the transfers: every matured purse's
amount moves from its bonding purse to the unbonder's account, in map
order. -/
def expectedTransfers (eraId delay : Nat) (m : UnbondingPurses) :
    List (Nat × Nat × Nat) :=
  (m.map (fun kv =>
    (kv.2.filter (fun up => matured eraId delay up)).map (fun up =>
      (up.bondingPurse, accountHashFromPublicKey up.unbonderPublicKey,
        up.amount)))).flatten

theorem transferPurseToAccount_ok (s s2 : AuctionState) (p a amt : Nat)
    (h : transferPurseToAccount s p a amt = some s2) :
    s2.transfers = s.transfers ++ [(p, a, amt)] ∧ s2.caller = s.caller ∧
    s2.eraId = s.eraId ∧ s2.unbondingDelay = s.unbondingDelay ∧
    s2.unbondingPurses = s.unbondingPurses := by
  unfold transferPurseToAccount at h
  cases hb : lookupA s.purseBalances p with
  | none => rw [hb] at h; exact absurd h (by simp)
  | some bal =>
    rw [hb] at h
    by_cases hlt : bal < amt
    · simp [hlt] at h
    · simp [hlt] at h
      subst h
      simp

theorem processPurseList_ok (eraId delay : Nat) (l : List UnbondingPurse) :
    ∀ s s2 l2, processPurseList eraId delay s l = .ok (s2, l2) →
    l2 = l.filter (fun up => ! matured eraId delay up) ∧
    s2.transfers = s.transfers ++
      (l.filter (fun up => matured eraId delay up)).map (fun up =>
        (up.bondingPurse, accountHashFromPublicKey up.unbonderPublicKey,
          up.amount)) ∧
    s2.caller = s.caller ∧ s2.eraId = s.eraId ∧
    s2.unbondingDelay = s.unbondingDelay ∧
    s2.unbondingPurses = s.unbondingPurses := by
  induction l with
  | nil =>
    intro s s2 l2 h
    unfold processPurseList at h
    cases h
    simp [List.filter]
  | cons up rest ih =>
    intro s s2 l2 h
    unfold processPurseList at h
    by_cases hm : up.eraOfCreation + delay ≤ eraId
    · rw [if_pos hm] at h
      cases ht : transferPurseToAccount s up.bondingPurse
          (accountHashFromPublicKey up.unbonderPublicKey) up.amount with
      | none => rw [ht] at h; exact absurd h (by simp)
      | some s3 =>
        rw [ht] at h
        obtain ⟨hfil, htr, hc, he, hd, hu⟩ := ih s3 s2 l2 h
        obtain ⟨ht1, ht2, ht3, ht4, ht5⟩ :=
          transferPurseToAccount_ok s s3 _ _ _ ht
        refine ⟨?_, ?_, by rw [hc, ht2], by rw [he, ht3],
          by rw [hd, ht4], by rw [hu, ht5]⟩
        · rw [hfil]
          simp [List.filter, matured, hm]
        · rw [htr, ht1]
          simp [List.filter, matured, hm]
    · rw [if_neg hm] at h
      cases hr : processPurseList eraId delay s rest with
      | error e => rw [hr] at h; exact absurd h (by simp)
      | ok pr =>
        obtain ⟨s3, l3⟩ := pr
        rw [hr] at h
        simp at h
        obtain ⟨hs, hl⟩ := h
        obtain ⟨hfil, htr, hc, he, hd, hu⟩ := ih s s3 l3 hr
        subst hs
        refine ⟨?_, ?_, hc, he, hd, hu⟩
        · rw [← hl, hfil]
          simp [List.filter, matured, hm]
        · rw [htr]
          simp [List.filter, matured, hm]

theorem processValidators_ok (eraId delay : Nat) (m : UnbondingPurses) :
    ∀ s s2 m2, processValidators eraId delay s m = .ok (s2, m2) →
    m2 = m.map (fun kv => (kv.1, kv.2.filter (fun up => ! matured eraId delay up))) ∧
    s2.transfers = s.transfers ++
      (m.map (fun kv =>
        (kv.2.filter (fun up => matured eraId delay up)).map (fun up =>
          (up.bondingPurse, accountHashFromPublicKey up.unbonderPublicKey,
            up.amount)))).flatten ∧
    s2.caller = s.caller ∧ s2.eraId = s.eraId ∧
    s2.unbondingDelay = s.unbondingDelay ∧
    s2.unbondingPurses = s.unbondingPurses := by
  induction m with
  | nil =>
    intro s s2 m2 h
    unfold processValidators at h
    cases h
    simp
  | cons kv rest ih =>
    intro s s2 m2 h
    obtain ⟨k, l⟩ := kv
    unfold processValidators at h
    cases h1 : processPurseList eraId delay s l with
    | error e => rw [h1] at h; exact absurd h (by simp)
    | ok pr1 =>
      obtain ⟨s3, l3⟩ := pr1
      rw [h1] at h
      dsimp only at h
      cases h2 : processValidators eraId delay s3 rest with
      | error e => rw [h2] at h; exact absurd h (by simp)
      | ok pr2 =>
        obtain ⟨s4, m4⟩ := pr2
        rw [h2] at h
        simp at h
        obtain ⟨hs, hm⟩ := h
        subst hs
        obtain ⟨pfil, ptr, pc, pe, pd, pu⟩ := processPurseList_ok eraId delay l s s3 l3 h1
        obtain ⟨vfil, vtr, vc, ve, vd, vu⟩ := ih s3 s4 m4 h2
        refine ⟨?_, ?_, by rw [vc, pc], by rw [ve, pe],
          by rw [vd, pd], by rw [vu, pu]⟩
        · rw [← hm, vfil, pfil]
          simp
        · rw [vtr, ptr]
          simp

/-- C1: process_unbond_requests rejects non-system callers with
InvalidCaller (performing no state change, as the error short-circuits
before any write or transfer); on success it transfers every matured
purse's amount from its bonding purse to the unbonder's account in order,
keeps exactly the unmatured purses, and prunes validators whose list
became empty. -/
theorem process_unbond_requests_correct (s : AuctionState) :
    (s.caller ≠ SYSTEM_ACCOUNT → processUnbondRequests s = .error .invalidCaller) ∧
    (∀ s2, processUnbondRequests s = .ok s2 →
      s.caller = SYSTEM_ACCOUNT ∧
      s2.unbondingPurses =
        expectedUnbondingPurses s.eraId s.unbondingDelay s.unbondingPurses ∧
      s2.transfers = s.transfers ++
        expectedTransfers s.eraId s.unbondingDelay s.unbondingPurses ∧
      s2.caller = s.caller ∧ s2.eraId = s.eraId ∧
      s2.unbondingDelay = s.unbondingDelay) := by
  constructor
  · intro hne
    unfold processUnbondRequests
    rw [if_pos hne]
  · intro s2 h
    unfold processUnbondRequests at h
    by_cases hc : s.caller ≠ SYSTEM_ACCOUNT
    · rw [if_pos hc] at h; exact absurd h (by simp)
    · rw [if_neg hc] at h
      push_neg at hc
      refine ⟨hc, ?_⟩
      cases hv : processValidators s.eraId s.unbondingDelay s s.unbondingPurses with
      | error e => rw [hv] at h; exact absurd h (by simp)
      | ok pr =>
        obtain ⟨s3, m3⟩ := pr
        rw [hv] at h
        simp at h
        obtain ⟨vfil, vtr, vcal, ver, vd, vu⟩ :=
          processValidators_ok s.eraId s.unbondingDelay s.unbondingPurses s s3 m3 hv
        subst h
        refine ⟨?_, ?_, vcal, ver, vd⟩
        · simp only [expectedUnbondingPurses]
          rw [vfil]
        · simpa [expectedTransfers] using vtr

/-- Witness for C1 on a concrete state: a validator with one matured and one
unmatured purse, and a second validator whose single purse matures; the
matured amounts are transferred and the emptied validator entry is pruned. -/
theorem process_unbond_requests_correct_witness :
    processUnbondRequests
        ⟨0, 5, 2, [(7, [⟨100, 7, 9, 3, 20⟩, ⟨100, 7, 9, 4, 15⟩]),
          (8, [⟨101, 8, 8, 1, 10⟩])], [(100, 50), (101, 10)], [], []⟩ =
      .ok ⟨0, 5, 2, [(7, [⟨100, 7, 9, 4, 15⟩])],
        [(100, 30), (101, 0)], [(9, 20), (8, 10)],
        [(100, 9, 20), (101, 8, 10)]⟩ ∧
    [(7, [⟨100, 7, 9, 4, 15⟩])] =
      expectedUnbondingPurses 5 2
        [(7, [⟨100, 7, 9, 3, 20⟩, ⟨100, 7, 9, 4, 15⟩]),
          (8, [⟨101, 8, 8, 1, 10⟩])] := by
  constructor
  · rfl
  · have h := (process_unbond_requests_correct
      ⟨0, 5, 2, [(7, [⟨100, 7, 9, 3, 20⟩, ⟨100, 7, 9, 4, 15⟩]),
        (8, [⟨101, 8, 8, 1, 10⟩])], [(100, 50), (101, 10)], [], []⟩).2
      ⟨0, 5, 2, [(7, [⟨100, 7, 9, 4, 15⟩])],
        [(100, 30), (101, 0)], [(9, 20), (8, 10)],
        [(100, 9, 20), (101, 8, 10)]⟩ (by rfl)
    exact h.2.1

/-- The create_unbonding_purse entry-insert: pushes the new purse onto the
validator's list, creating the entry when absent. -/
def entryOrDefaultPush (m : UnbondingPurses) (k : Nat) (up : UnbondingPurse) :
    UnbondingPurses :=
  match m with
  | [] => [(k, [up])]
  | (k0, l) :: rest =>
    if k0 = k then (k0, l ++ [up]) :: rest
    else (k0, l) :: entryOrDefaultPush rest k up

/-- The create_unbonding_purse function from detail.rs: rejects requests
larger than the bonding purse's balance, otherwise appends a fresh
UnbondingPurse stamped with the current era. -/
def createUnbondingPurse (s : AuctionState)
    (validatorPk unbonderPk bondingPurse amount : Nat) :
    Except AError AuctionState :=
  if (lookupA s.purseBalances bondingPurse).getD 0 < amount then
    .error .unbondTooLarge
  else
    .ok { s with
      unbondingPurses :=
        entryOrDefaultPush s.unbondingPurses validatorPk
          ⟨bondingPurse, validatorPk, unbonderPk, s.eraId, amount⟩ }

end Auction

namespace Upgrade

/-- Protocol version triple. -/
structure ProtocolVersion where
  major : Nat
  minor : Nat
  patch : Nat
deriving DecidableEq, Repr

/-- Contract record: its package hash and the protocol version it was
stored under (the remaining fields play no role in the upgrade). -/
structure Contract where
  contractPackageHash : Nat
  protocolVersion : ProtocolVersion
deriving DecidableEq, Repr

/-- Modelled from the spec: a contract package holds a version map keyed by
protocol major version and the set of disabled versions (the ContractPackage
type itself is outside the excerpt). -/
structure ContractPackage where
  versions : List (Nat × Nat)
  disabledVersions : List Nat
deriving DecidableEq, Repr

/-- Stored values reachable from the upgrade path; clValue stands for every
other stored-value variant. -/
inductive StoredValue where
  | contract (c : Contract)
  | contractPackage (p : ContractPackage)
  | clValue (n : Nat)
deriving DecidableEq, Repr

/-- Tracking copy, embedded as the map of keys to stored values. -/
abbrev TrackingCopy := List (Nat × StoredValue)

/-- Modelled from the spec: disabling the previous version marks the version
entry holding the given contract hash as disabled; it fails when no version
of the package holds that hash. -/
def disableContractVersion (p : ContractPackage) (contractHash : Nat) :
    Option ContractPackage :=
  match p.versions.find? (fun kv => kv.2 = contractHash) with
  | none => none
  | some kv => some { p with disabledVersions := p.disabledVersions ++ [kv.1] }

/-- Modelled from the spec: inserting the mapping from the new version's
major number to the contract hash into the package's version map. -/
def insertContractVersion (p : ContractPackage) (major contractHash : Nat) :
    ContractPackage :=
  { p with versions := setA p.versions major contractHash }

/-- Closed error enum of the protocol upgrade. -/
inductive ProtocolUpgradeError where
  | invalidUpgradeConfig
  | unableToRetrieveSystemContract (name : String)
  | unableToRetrieveSystemContractPackage (name : String)
  | failedToDisablePreviousVersion (name : String)
deriving DecidableEq, Repr

/-- SystemUpgrader::store_contract from upgrade.rs: read the contract, read
its package, disable the previous version, bump the contract's protocol
version, insert the new major mapping, and write both back. -/
def storeContract (tc : TrackingCopy) (newVersion : ProtocolVersion)
    (contractHash : Nat) (contractName : String) :
    Except ProtocolUpgradeError TrackingCopy :=
  match lookupA tc contractHash with
  | some (.contract c) =>
    match lookupA tc c.contractPackageHash with
    | some (.contractPackage p) =>
      match disableContractVersion p contractHash with
      | none => .error (.failedToDisablePreviousVersion contractName)
      | some p2 =>
        .ok (setA (setA tc contractHash
            (.contract { c with protocolVersion := newVersion }))
          c.contractPackageHash
          (.contractPackage (insertContractVersion p2 newVersion.major contractHash)))
    | _ => .error (.unableToRetrieveSystemContractPackage contractName)
  | _ => .error (.unableToRetrieveSystemContract contractName)

/-- The four system contract hashes recorded in the protocol data. -/
structure ProtocolData where
  mint : Nat
  auction : Nat
  proofOfStake : Nat
  standardPayment : Nat
deriving DecidableEq, Repr

/-- SystemUpgrader::upgrade_system_contracts_major_version: stores the four
system contracts in order (mint, auction, proof of stake, standard
payment), short-circuiting on the first error. -/
def upgradeSystemContractsMajorVersion (pd : ProtocolData)
    (ver : ProtocolVersion) (tc : TrackingCopy) :
    Except ProtocolUpgradeError TrackingCopy :=
  match storeContract tc ver pd.mint "mint" with
  | .error e => .error e
  | .ok tc1 =>
    match storeContract tc1 ver pd.auction "auction" with
    | .error e => .error e
    | .ok tc2 =>
      match storeContract tc2 ver pd.proofOfStake "proof of stake" with
      | .error e => .error e
      | .ok tc3 => storeContract tc3 ver pd.standardPayment "standard payment"

end Upgrade

namespace Upgrade

/-- C5: for each system contract the upgrade reads the contract, reads its
package, disables the previous version, bumps the contract's protocol
version to the new one, inserts the new major mapping into the package and
writes both back; failed reads and a failed disable map to the three named
errors; and a successful four-contract upgrade is exactly the chain of
these steps over mint, auction, proof of stake and standard payment. -/
theorem upgrade_system_contracts_correct (tc : TrackingCopy)
    (ver : ProtocolVersion) (h : Nat) (name : String) :
    ((∀ c, lookupA tc h ≠ some (.contract c)) →
      storeContract tc ver h name =
        .error (.unableToRetrieveSystemContract name)) ∧
    (∀ c, lookupA tc h = some (.contract c) →
      ((∀ p, lookupA tc c.contractPackageHash ≠ some (.contractPackage p)) →
        storeContract tc ver h name =
          .error (.unableToRetrieveSystemContractPackage name)) ∧
      (∀ p, lookupA tc c.contractPackageHash = some (.contractPackage p) →
        (disableContractVersion p h = none →
          storeContract tc ver h name =
            .error (.failedToDisablePreviousVersion name)) ∧
        (∀ p2, disableContractVersion p h = some p2 →
          ∃ tcf, storeContract tc ver h name = .ok tcf ∧
            lookupA tcf h =
              some (.contract { c with protocolVersion := ver }) ∧
            lookupA tcf c.contractPackageHash =
              some (.contractPackage
                (insertContractVersion p2 ver.major h)) ∧
            lookupA (insertContractVersion p2 ver.major h).versions ver.major
              = some h))) ∧
    (∀ pd tcf, upgradeSystemContractsMajorVersion pd ver tc = .ok tcf →
      ∃ tc1 tc2 tc3,
        storeContract tc ver pd.mint "mint" = .ok tc1 ∧
        storeContract tc1 ver pd.auction "auction" = .ok tc2 ∧
        storeContract tc2 ver pd.proofOfStake "proof of stake" = .ok tc3 ∧
        storeContract tc3 ver pd.standardPayment "standard payment" = .ok tcf) := by
  refine ⟨?_, ?_, ?_⟩
  · intro hno
    unfold storeContract
    cases hl : lookupA tc h with
    | none => rfl
    | some v =>
      cases v with
      | contract c => exact absurd hl (hno c)
      | contractPackage p => rfl
      | clValue n => rfl
  · intro c hc
    constructor
    · intro hno
      unfold storeContract
      rw [hc]
      dsimp only
      cases hl : lookupA tc c.contractPackageHash with
      | none => rfl
      | some v =>
        cases v with
        | contract c2 => rfl
        | contractPackage p => exact absurd hl (hno p)
        | clValue n => rfl
    · intro p hp
      constructor
      · intro hd
        unfold storeContract
        rw [hc]
        dsimp only
        rw [hp]
        dsimp only
        rw [hd]
      · intro p2 hd
        have hne : h ≠ c.contractPackageHash := by
          intro he
          rw [← he, hc] at hp
          exact absurd (Option.some.injEq _ _ ▸ hp) (by simp)
        refine ⟨setA (setA tc h
            (.contract { c with protocolVersion := ver }))
          c.contractPackageHash
          (.contractPackage (insertContractVersion p2 ver.major h)),
          ?_, ?_, ?_, ?_⟩
        · unfold storeContract
          rw [hc]
          dsimp only
          rw [hp]
          dsimp only
          rw [hd]
        · rw [lookupA_setA_other _ _ _ _ (Ne.symm hne), lookupA_setA_self]
        · rw [lookupA_setA_self]
        · simp [insertContractVersion, lookupA_setA_self]
  · intro pd tcf hu
    unfold upgradeSystemContractsMajorVersion at hu
    cases h1 : storeContract tc ver pd.mint "mint" with
    | error e => rw [h1] at hu; exact absurd hu (by simp)
    | ok tc1 =>
      rw [h1] at hu
      dsimp only at hu
      cases h2 : storeContract tc1 ver pd.auction "auction" with
      | error e => rw [h2] at hu; exact absurd hu (by simp)
      | ok tc2 =>
        rw [h2] at hu
        dsimp only at hu
        cases h3 : storeContract tc2 ver pd.proofOfStake "proof of stake" with
        | error e => rw [h3] at hu; exact absurd hu (by simp)
        | ok tc3 =>
          rw [h3] at hu
          dsimp only at hu
          exact ⟨tc1, tc2, tc3, rfl, h2, h3, hu⟩

/-- Witness for C5 at a concrete store: a mint contract at hash 1 with its
package at hash 11 and one enabled version; the success branch applies and
the upgraded contract and package are read back. -/
theorem upgrade_system_contracts_correct_witness :
    lookupA [(1, Upgrade.StoredValue.contract ⟨11, ⟨1, 0, 0⟩⟩),
        (11, Upgrade.StoredValue.contractPackage ⟨[(1, 1)], []⟩)] 1 =
      some (.contract ⟨11, ⟨1, 0, 0⟩⟩) ∧
    ∃ tcf,
      storeContract [(1, Upgrade.StoredValue.contract ⟨11, ⟨1, 0, 0⟩⟩),
          (11, Upgrade.StoredValue.contractPackage ⟨[(1, 1)], []⟩)]
        ⟨2, 0, 0⟩ 1 "mint" = .ok tcf ∧
      lookupA tcf 1 = some (.contract ⟨11, ⟨2, 0, 0⟩⟩) ∧
      lookupA tcf 11 =
        some (.contractPackage (insertContractVersion ⟨[(1, 1)], [1]⟩ 2 1)) ∧
      lookupA (insertContractVersion ⟨[(1, 1)], [1]⟩ 2 1).versions 2 = some 1 := by
  refine ⟨rfl, ?_⟩
  exact (((upgrade_system_contracts_correct
      [(1, Upgrade.StoredValue.contract ⟨11, ⟨1, 0, 0⟩⟩),
        (11, Upgrade.StoredValue.contractPackage ⟨[(1, 1)], []⟩)]
      ⟨2, 0, 0⟩ 1 "mint").2.1 ⟨11, ⟨1, 0, 0⟩⟩ rfl).2 ⟨[(1, 1)], []⟩ rfl).2
    ⟨[(1, 1)], [1]⟩ rfl

end Upgrade

namespace Auction

theorem lookupA_entryOrDefaultPush_self (m : UnbondingPurses) (k : Nat)
    (up : UnbondingPurse) :
    lookupA (entryOrDefaultPush m k up) k =
      some ((lookupA m k).getD [] ++ [up]) := by
  induction m with
  | nil => simp [entryOrDefaultPush, lookupA]
  | cons hd tl ih =>
    obtain ⟨k0, l⟩ := hd
    by_cases h : k0 = k
    · simp [entryOrDefaultPush, lookupA, h]
    · simp [entryOrDefaultPush, lookupA, h, ih]

theorem lookupA_entryOrDefaultPush_other (m : UnbondingPurses) (k k2 : Nat)
    (up : UnbondingPurse) (h : k2 ≠ k) :
    lookupA (entryOrDefaultPush m k up) k2 = lookupA m k2 := by
  induction m with
  | nil => simp [entryOrDefaultPush, lookupA, Ne.symm h]
  | cons hd tl ih =>
    obtain ⟨k0, l⟩ := hd
    by_cases h0 : k0 = k
    · subst h0
      simp [entryOrDefaultPush, lookupA, Ne.symm h]
    · simp [entryOrDefaultPush, lookupA, h0, ih]

/-- C10: create_unbonding_purse fails with UnbondTooLarge, before touching
the unbonding-purses map, whenever the bonding purse's balance is below the
requested amount; a successful call appends one fresh UnbondingPurse to the
validator's list leaving every other entry and all balances unchanged, and
two successful calls append two separate entries that are never merged. -/
theorem create_unbonding_purse_correct (s : AuctionState)
    (v u b a : Nat) :
    ((lookupA s.purseBalances b).getD 0 < a →
      createUnbondingPurse s v u b a = .error .unbondTooLarge) ∧
    (∀ s2, createUnbondingPurse s v u b a = .ok s2 →
      lookupA s2.unbondingPurses v =
        some ((lookupA s.unbondingPurses v).getD [] ++ [⟨b, v, u, s.eraId, a⟩]) ∧
      (∀ k, k ≠ v → lookupA s2.unbondingPurses k = lookupA s.unbondingPurses k) ∧
      s2.purseBalances = s.purseBalances ∧ s2.accountBalances = s.accountBalances ∧
      s2.eraId = s.eraId ∧ s2.caller = s.caller ∧ s2.transfers = s.transfers) ∧
    (∀ s2 s3, createUnbondingPurse s v u b a = .ok s2 →
      createUnbondingPurse s2 v u b a = .ok s3 →
      lookupA s3.unbondingPurses v =
        some ((lookupA s.unbondingPurses v).getD [] ++
          [⟨b, v, u, s.eraId, a⟩, ⟨b, v, u, s.eraId, a⟩])) := by
  have hok : ∀ s2, createUnbondingPurse s v u b a = .ok s2 →
      s2 = { s with
        unbondingPurses := entryOrDefaultPush s.unbondingPurses v ⟨b, v, u, s.eraId, a⟩ } ∧
      ¬ (lookupA s.purseBalances b).getD 0 < a := by
    intro s2 h
    unfold createUnbondingPurse at h
    by_cases hlt : (lookupA s.purseBalances b).getD 0 < a
    · rw [if_pos hlt] at h; exact absurd h (by simp)
    · rw [if_neg hlt] at h
      simp at h
      exact ⟨h.symm, hlt⟩
  refine ⟨?_, ?_, ?_⟩
  · intro hlt
    unfold createUnbondingPurse
    rw [if_pos hlt]
  · intro s2 h
    obtain ⟨hs2, hlt⟩ := hok s2 h
    subst hs2
    refine ⟨lookupA_entryOrDefaultPush_self _ _ _, ?_, rfl, rfl, rfl, rfl, rfl⟩
    intro k hk
    exact lookupA_entryOrDefaultPush_other _ _ _ _ hk
  · intro s2 s3 h1 h2
    obtain ⟨hs2, hlt⟩ := hok s2 h1
    subst hs2
    unfold createUnbondingPurse at h2
    rw [if_neg hlt] at h2
    simp at h2
    subst h2
    simp only [lookupA_entryOrDefaultPush_self]
    simp

/-- Witness for C10: from an empty map and a bonding purse holding 30, a
request for 40 fails with UnbondTooLarge while two successful requests for
10 each append two separate entries for the same validator and unbonder. -/
theorem create_unbonding_purse_correct_witness :
    createUnbondingPurse ⟨3, 2, 7, [], [(5, 30)], [], []⟩ 4 6 5 40 =
      .error .unbondTooLarge ∧
    ∀ s2 s3, createUnbondingPurse ⟨3, 2, 7, [], [(5, 30)], [], []⟩ 4 6 5 10 = .ok s2 →
      createUnbondingPurse s2 4 6 5 10 = .ok s3 →
      lookupA s3.unbondingPurses 4 =
        some [⟨5, 4, 6, 2, 10⟩, ⟨5, 4, 6, 2, 10⟩] := by
  constructor
  · exact (create_unbonding_purse_correct ⟨3, 2, 7, [], [(5, 30)], [], []⟩
      4 6 5 40).1 (by decide)
  · intro s2 s3 h1 h2
    have := (create_unbonding_purse_correct ⟨3, 2, 7, [], [(5, 30)], [], []⟩
      4 6 5 10).2.2 s2 s3 h1 h2
    simpa [lookupA] using this

end Auction

namespace LinearChain

/-- A finality signature: the signed block hash, the era the signer claims
the block belongs to, the signer's public key and the signature bytes. -/
structure FinalitySignature where
  blockHash : Nat
  eraId : Nat
  publicKey : Nat
  signature : Nat
deriving DecidableEq, Repr

/-- The block fields the linear-chain component manipulates: its hash, its
header's era id and the collected proofs map (public key to signature). -/
structure Block where
  hash : Nat
  eraId : Nat
  proofs : List (Nat × Nat)
deriving DecidableEq, Repr

/-- Block::append_proof inserts into the ordered proofs map. -/
def Block.appendProof (b : Block) (pk sig : Nat) : Block :=
  { b with proofs := setA b.proofs pk sig }

def containsKey {α : Type} (m : List (Nat × α)) (k : Nat) : Bool :=
  (lookupA m k).isSome

/-- Pending finality signatures keyed by validator public key, then block
hash. -/
abbrev Pending := List (Nat × List (Nat × FinalitySignature))

/-- Map removal returning the removed value, mirroring HashMap::remove. -/
def removeGet {α : Type} : List (Nat × α) → Nat → Option α × List (Nat × α)
  | [], _ => (none, [])
  | (k, v) :: rest, key =>
    if k = key then (some v, rest)
    else
      let (r, m) := removeGet rest key
      (r, (k, v) :: m)

/-- Drains, from every validator's pending map, the signature stored for
the given block hash, in map order; empty validator entries are then
pruned (remove_empty_entries). -/
def drainPending : Pending → Nat → List FinalitySignature × Pending
  | [], _ => ([], [])
  | (k, inner) :: rest, blockHash =>
    let (r, inner2) := removeGet inner blockHash
    let (sigs, rest2) := drainPending rest blockHash
    let sigs2 := match r with
      | none => sigs
      | some fs => fs :: sigs
    if inner2.isEmpty then (sigs2, rest2)
    else (sigs2, (k, inner2) :: rest2)

/-- The append loop of collect_pending_finality_signatures: a drained
signature is skipped when its era id disagrees with the block's era or its
signer already has a proof; otherwise it is appended to the proofs and
announced. -/
def appendLoop (blockEra : Nat) :
    Block → List FinalitySignature → Block × List FinalitySignature
  | b, [] => (b, [])
  | b, fs :: rest =>
    if fs.eraId ≠ blockEra then appendLoop blockEra b rest
    else if containsKey b.proofs fs.publicKey then appendLoop blockEra b rest
    else
      let b2 := b.appendProof fs.publicKey fs.signature
      let (b3, ann) := appendLoop blockEra b2 rest
      (b3, fs :: ann)

/-- LinearChain::collect_pending_finality_signatures: drain the block's
pending signatures, drop those whose signer already has a proof, then
append the era-matching ones; returns the updated block, the remaining
pending map and the announced signatures. -/
def collectPendingFinalitySignatures (pending : Pending) (block : Block) :
    Block × Pending × List FinalitySignature :=
  let (drained, pending2) := drainPending pending block.hash
  let drained2 := drained.filter (fun fs => ! containsKey block.proofs fs.publicKey)
  let (block2, announced) := appendLoop block.eraId block drained2
  (block2, pending2, announced)

/-- The block cache: the newest era seen and the cached blocks (headers
with their merged proofs). -/
structure BlockCache where
  currEra : Nat
  blocks : List (Nat × Block)
deriving DecidableEq, Repr

/-- BlockCache::insert: blocks of older eras are dropped when a newer-era
block arrives; a re-inserted block's proofs are merged into the cached
ones. -/
def BlockCache.insert (c : BlockCache) (b : Block) : BlockCache :=
  let c2 : BlockCache := if c.currEra < b.eraId then ⟨b.eraId, []⟩ else c
  let merged : Block :=
    match lookupA c2.blocks b.hash with
    | some old =>
      { b with proofs := b.proofs.foldl (fun m kv => setA m kv.1 kv.2) old.proofs }
    | none => b
  ⟨c2.currEra, setA c2.blocks b.hash merged⟩

/-- Effects the linear-chain component can request while handling a
finality signature. -/
inductive LcEffect where
  | isBondedValidator (eraId pk : Nat)
  | broadcastFinSig (fs : FinalitySignature)
  | announceFinSig (fs : FinalitySignature)
  | putBlockToStorage (b : Block)
deriving DecidableEq, Repr

/-- The Event::GetBlockForFinalitySignaturesResult handler: when the block
is known and its era disagrees with the signature's era id, the signature
is dropped with no effects at all; otherwise the block is cached and the
bonding check for the signer is requested. -/
def handleGetBlockForFinalitySignaturesResult (cache : BlockCache)
    (fs : FinalitySignature) (mb : Option Block) :
    BlockCache × List LcEffect :=
  match mb with
  | some b =>
    if b.eraId ≠ fs.eraId then (cache, [])
    else (cache.insert b, [.isBondedValidator fs.eraId fs.publicKey])
  | none => (cache, [.isBondedValidator fs.eraId fs.publicKey])

end LinearChain

namespace LinearChain

theorem appendLoop_spec (era : Nat) (sigs : List FinalitySignature) :
    ∀ b : Block,
    (∀ fs, fs ∈ (appendLoop era b sigs).2 → fs.eraId = era ∧ fs ∈ sigs) ∧
    (∀ pk, (∀ fs, fs ∈ sigs → fs.publicKey = pk → fs.eraId ≠ era) →
      lookupA (appendLoop era b sigs).1.proofs pk = lookupA b.proofs pk) := by
  induction sigs with
  | nil =>
    intro b
    constructor
    · intro fs h
      simp [appendLoop] at h
    · intro pk _
      simp [appendLoop]
  | cons fs0 rest ih =>
    intro b
    by_cases he : fs0.eraId ≠ era
    · constructor
      · intro fs h
        rw [appendLoop, if_pos he] at h
        obtain ⟨h1, h2⟩ := (ih b).1 fs h
        exact ⟨h1, List.mem_cons_of_mem _ h2⟩
      · intro pk hpk
        rw [appendLoop, if_pos he]
        exact (ih b).2 pk (fun g hg => hpk g (List.mem_cons_of_mem _ hg))
    · push_neg at he
      by_cases hc : containsKey b.proofs fs0.publicKey
      · constructor
        · intro fs h
          rw [appendLoop, if_neg (by simp [he]), if_pos hc] at h
          obtain ⟨h1, h2⟩ := (ih b).1 fs h
          exact ⟨h1, List.mem_cons_of_mem _ h2⟩
        · intro pk hpk
          rw [appendLoop, if_neg (by simp [he]), if_pos hc]
          exact (ih b).2 pk (fun g hg => hpk g (List.mem_cons_of_mem _ hg))
      · have hstep : appendLoop era b (fs0 :: rest) =
            (let b2 := b.appendProof fs0.publicKey fs0.signature
             let pr := appendLoop era b2 rest
             (pr.1, fs0 :: pr.2)) := by
          rw [appendLoop, if_neg (by simp [he]), if_neg hc]
        constructor
        · intro fs h
          rw [hstep] at h
          simp only [List.mem_cons] at h
          cases h with
          | inl h => subst h; exact ⟨he, List.mem_cons_self _ _⟩
          | inr h =>
            obtain ⟨h1, h2⟩ :=
              (ih (b.appendProof fs0.publicKey fs0.signature)).1 fs h
            exact ⟨h1, List.mem_cons_of_mem _ h2⟩
        · intro pk hpk
          rw [hstep]
          have hne : fs0.publicKey ≠ pk := by
            intro hcontra
            exact hpk fs0 (List.mem_cons_self _ _) hcontra he
          have := (ih (b.appendProof fs0.publicKey fs0.signature)).2 pk
            (fun g hg => hpk g (List.mem_cons_of_mem _ hg))
          dsimp only at this ⊢
          rw [this]
          simp only [Block.appendProof]
          exact lookupA_setA_other _ _ _ _ hne

theorem drained_filter_sub (pending : Pending) (block : Block) (fs : FinalitySignature)
    (h : fs ∈ (drainPending pending block.hash).1.filter
      (fun g => ! containsKey block.proofs g.publicKey)) :
    fs ∈ (drainPending pending block.hash).1 :=
  List.mem_of_mem_filter h

/-- C4: a finality signature whose era id disagrees with its block's era is
never appended to the block's proofs: every signature announced and
appended by collect_pending_finality_signatures carries the block's own era
id, a validator all of whose drained signatures mismatch the era keeps its
proofs entry unchanged, and when the block is fetched after the signature
arrived the handler drops a mismatching signature with no state change and
no effects, regardless of whether the signature bytes verify. -/
theorem finality_signature_era_check (pending : Pending) (block : Block)
    (cache : BlockCache) (fs : FinalitySignature) (mb : Option Block) :
    (∀ g, g ∈ (collectPendingFinalitySignatures pending block).2.2 →
      g.eraId = block.eraId) ∧
    (∀ pk, (∀ g, g ∈ (drainPending pending block.hash).1 →
        g.publicKey = pk → g.eraId ≠ block.eraId) →
      lookupA (collectPendingFinalitySignatures pending block).1.proofs pk =
        lookupA block.proofs pk) ∧
    (∀ b, mb = some b → b.eraId ≠ fs.eraId →
      handleGetBlockForFinalitySignaturesResult cache fs mb = (cache, [])) := by
  refine ⟨?_, ?_, ?_⟩
  · intro g hg
    unfold collectPendingFinalitySignatures at hg
    exact ((appendLoop_spec block.eraId _ block).1 g hg).1
  · intro pk hpk
    unfold collectPendingFinalitySignatures
    exact (appendLoop_spec block.eraId _ block).2 pk
      (fun g hg hgpk => hpk g (drained_filter_sub pending block g hg) hgpk)
  · intro b hb hne
    subst hb
    unfold handleGetBlockForFinalitySignaturesResult
    dsimp only
    rw [if_pos hne]

/-- Witness for C4: one pending signature for block 9 carrying era 6 while
the block has era 5; nothing is announced, the proofs stay empty, and the
fetch-path handler drops the signature without effects. -/
theorem finality_signature_era_check_witness :
    (∀ g, g ∈ (collectPendingFinalitySignatures
        [(2, [(9, ⟨9, 6, 2, 77⟩)])] ⟨9, 5, []⟩).2.2 → g.eraId = 5) ∧
    lookupA (collectPendingFinalitySignatures
        [(2, [(9, ⟨9, 6, 2, 77⟩)])] ⟨9, 5, []⟩).1.proofs 2 = none ∧
    handleGetBlockForFinalitySignaturesResult ⟨0, []⟩ ⟨9, 6, 2, 77⟩
        (some ⟨9, 5, []⟩) = (⟨0, []⟩, []) := by
  have h := finality_signature_era_check [(2, [(9, ⟨9, 6, 2, 77⟩)])]
    ⟨9, 5, []⟩ ⟨0, []⟩ ⟨9, 6, 2, 77⟩ (some ⟨9, 5, []⟩)
  refine ⟨h.1, ?_, h.2.2 ⟨9, 5, []⟩ rfl (by decide)⟩
  have h2 := h.2.1 2 (by
    intro g hg hgpk
    simp [drainPending, removeGet] at hg
    subst hg
    decide)
  exact h2

/-- The per-validator cap on pending finality signatures. -/
def MAX_PENDING_FINALITY_SIGNATURES_PER_VALIDATOR : Nat := 1000

/-- The pending-signatures store keyed by the creator's public key, as in
pending_signatures.rs (the Signature wrapper distinguishing local from
external signatures is flattened to the signature itself). -/
structure PendingSignatures where
  pendingFinalitySignatures : Pending
deriving DecidableEq, Repr

/-- PendingSignatures::add: refuses, leaving the store unchanged, when the
validator already has the maximum number of pending signatures, and
otherwise inserts under the signature's block hash and reports success.
(The entry-or-default insertion of an empty inner map in the source can
only create an entry when it was absent, in which case the length check
passes, so a refusal leaves the map observably unchanged.) -/
def PendingSignatures.add (ps : PendingSignatures) (fs : FinalitySignature) :
    Bool × PendingSignatures :=
  let sigs := (lookupA ps.pendingFinalitySignatures fs.publicKey).getD []
  if MAX_PENDING_FINALITY_SIGNATURES_PER_VALIDATOR ≤ sigs.length then
    (false, ps)
  else
    (true, ⟨setA ps.pendingFinalitySignatures fs.publicKey
      (setA sigs fs.blockHash fs)⟩)

/-- Number of pending signatures held for one validator. -/
def PendingSignatures.countFor (ps : PendingSignatures) (pk : Nat) : Nat :=
  ((lookupA ps.pendingFinalitySignatures pk).getD []).length

theorem setA_length_le {α : Type} (m : List (Nat × α)) (k : Nat) (v : α) :
    (setA m k v).length ≤ m.length + 1 := by
  induction m with
  | nil => simp [setA]
  | cons hd tl ih =>
    obtain ⟨k0, w⟩ := hd
    by_cases h : k0 = k
    · simp [setA, h]
    · simp only [setA, if_neg h, List.length_cons]
      omega

/-- C8: an add below the per-validator limit succeeds and stores the
signature under its block hash without touching other validators; an add
at or above the limit is refused and stores nothing; and consequently no
validator ever holds more than 1000 pending signatures. -/
theorem pending_signatures_limit (ps : PendingSignatures)
    (fs : FinalitySignature) :
    (ps.countFor fs.publicKey < MAX_PENDING_FINALITY_SIGNATURES_PER_VALIDATOR →
      (ps.add fs).1 = true ∧
      lookupA (ps.add fs).2.pendingFinalitySignatures fs.publicKey =
        some (setA ((lookupA ps.pendingFinalitySignatures fs.publicKey).getD [])
          fs.blockHash fs) ∧
      (∀ pk, pk ≠ fs.publicKey →
        lookupA (ps.add fs).2.pendingFinalitySignatures pk =
          lookupA ps.pendingFinalitySignatures pk)) ∧
    (MAX_PENDING_FINALITY_SIGNATURES_PER_VALIDATOR ≤ ps.countFor fs.publicKey →
      ps.add fs = (false, ps)) ∧
    (∀ pk, ps.countFor pk ≤ MAX_PENDING_FINALITY_SIGNATURES_PER_VALIDATOR →
      (ps.add fs).2.countFor pk ≤ MAX_PENDING_FINALITY_SIGNATURES_PER_VALIDATOR) := by
  refine ⟨?_, ?_, ?_⟩
  · intro hlt
    have hcond : ¬ MAX_PENDING_FINALITY_SIGNATURES_PER_VALIDATOR ≤
        ((lookupA ps.pendingFinalitySignatures fs.publicKey).getD []).length := by
      exact Nat.not_le.mpr hlt
    unfold PendingSignatures.add
    rw [if_neg hcond]
    refine ⟨rfl, lookupA_setA_self _ _ _, ?_⟩
    intro pk hpk
    exact lookupA_setA_other _ _ _ _ (fun he => hpk he.symm)
  · intro hge
    have hcond : MAX_PENDING_FINALITY_SIGNATURES_PER_VALIDATOR ≤
        ((lookupA ps.pendingFinalitySignatures fs.publicKey).getD []).length := hge
    unfold PendingSignatures.add
    rw [if_pos hcond]
  · intro pk hle
    by_cases hcond : MAX_PENDING_FINALITY_SIGNATURES_PER_VALIDATOR ≤
        ((lookupA ps.pendingFinalitySignatures fs.publicKey).getD []).length
    · unfold PendingSignatures.add
      rw [if_pos hcond]
      exact hle
    · unfold PendingSignatures.add
      rw [if_neg hcond]
      by_cases hpk : pk = fs.publicKey
      · subst hpk
        unfold PendingSignatures.countFor at hle ⊢
        dsimp only
        rw [lookupA_setA_self]
        have := setA_length_le
          ((lookupA ps.pendingFinalitySignatures fs.publicKey).getD [])
          fs.blockHash fs
        have hlt := Nat.not_le.mp hcond
        simp only [Option.getD_some]
        omega
      · unfold PendingSignatures.countFor at hle ⊢
        dsimp only
        rw [lookupA_setA_other _ _ _ _ (fun he => hpk he.symm)]
        exact hle

/-- Witness for C8: adding a signature for a validator with no pending
entries succeeds, stores it, and the count stays within the limit. -/
theorem pending_signatures_limit_witness :
    (PendingSignatures.add ⟨[]⟩ ⟨9, 5, 2, 77⟩).1 = true ∧
    lookupA (PendingSignatures.add ⟨[]⟩ ⟨9, 5, 2, 77⟩).2.pendingFinalitySignatures 2 =
      some [(9, ⟨9, 5, 2, 77⟩)] ∧
    (PendingSignatures.add ⟨[]⟩ ⟨9, 5, 2, 77⟩).2.countFor 2 ≤
      MAX_PENDING_FINALITY_SIGNATURES_PER_VALIDATOR := by
  have h := pending_signatures_limit ⟨[]⟩ ⟨9, 5, 2, 77⟩
  have h1 := h.1 (by decide)
  refine ⟨h1.1, ?_, h.2.2 2 (by decide)⟩
  exact h1.2.1

end LinearChain

namespace Genesis

/-- Initial era id at genesis. -/
def INITIAL_ERA_ID : Nat := 0

/-- Validator bid fields used at genesis. -/
structure Bid where
  bondingPurse : Nat
  stakedAmount : Nat
  delegationRate : Nat
  lockedFundsPeriod : Nat
deriving DecidableEq, Repr

/-- Bid::locked: a founding validator's bid over its funded purse, with the
locked-funds period and no delegators. -/
def Bid.locked (purse amount period : Nat) : Bid := ⟨purse, amount, 0, period⟩

/-- Modelled from the spec: the snapshot of stake, delegation rate and
delegator stakes frozen for a future era (SeigniorageRecipient and its
From Bid conversion are outside the excerpt); genesis bids carry no
delegators. -/
structure SeigniorageRecipient where
  stake : Nat
  delegationRate : Nat
  delegatorStake : List (Nat × Nat)
deriving DecidableEq, Repr

def SeigniorageRecipient.fromBid (b : Bid) : SeigniorageRecipient :=
  ⟨b.stakedAmount, b.delegationRate, []⟩

abbrev SeigniorageRecipients := List (Nat × SeigniorageRecipient)
abbrev SeigniorageRecipientsSnapshot := List (Nat × SeigniorageRecipients)

/-- Sorted-map insertion, mirroring BTreeMap insert (keys kept ascending). -/
def insertSortedA {α : Type} : List (Nat × α) → Nat → α → List (Nat × α)
  | [], k, v => [(k, v)]
  | (k0, w) :: rest, k, v =>
    if k = k0 then (k0, v) :: rest
    else if k < k0 then (k, v) :: (k0, w) :: rest
    else (k0, w) :: insertSortedA rest k v

/-- Rust inclusive range a..=b as the list of its elements in order. -/
def rangeInclusive (a b : Nat) : List Nat :=
  (List.range (b + 1 - a)).map (a + ·)

/-- The recipients map built from the genesis validators' bids, one
SeigniorageRecipient per validator. -/
def buildRecipients (validators : List (Nat × Bid)) : SeigniorageRecipients :=
  validators.foldl
    (fun m kv => setA m kv.1 (SeigniorageRecipient.fromBid kv.2)) []

/-- GenesisInstaller::initial_seigniorage_recipients: one snapshot entry
for every era of INITIAL_ERA_ID..=INITIAL_ERA_ID+auction_delay, each a
clone of the recipients map. -/
def initialSeigniorageRecipients (validators : List (Nat × Bid))
    (auctionDelay : Nat) : SeigniorageRecipientsSnapshot :=
  let recipients := buildRecipients validators
  (rangeInclusive INITIAL_ERA_ID (INITIAL_ERA_ID + auctionDelay)).foldl
    (fun snap e => setA snap e recipients) []

theorem setA_append {α : Type} (m : List (Nat × α)) (k : Nat) (v : α)
    (h : lookupA m k = none) : setA m k v = m ++ [(k, v)] := by
  induction m with
  | nil => simp [setA]
  | cons hd tl ih =>
    obtain ⟨k0, w⟩ := hd
    by_cases h0 : k0 = k
    · rw [lookupA, if_pos h0] at h
      exact absurd h (by simp)
    · rw [lookupA, if_neg h0] at h
      simp [setA, h0, ih h]

theorem lookupA_append_left_none {α : Type} (m1 m2 : List (Nat × α)) (k : Nat)
    (h : lookupA m1 k = none) : lookupA (m1 ++ m2) k = lookupA m2 k := by
  induction m1 with
  | nil => simp
  | cons hd tl ih =>
    obtain ⟨k0, w⟩ := hd
    by_cases h0 : k0 = k
    · rw [lookupA, if_pos h0] at h
      exact absurd h (by simp)
    · rw [lookupA, if_neg h0] at h
      simp only [List.cons_append, lookupA, if_neg h0]
      exact ih h

theorem foldl_setA_fresh {α : Type} (f : Nat → α) (es : List Nat) :
    ∀ acc : List (Nat × α), (∀ e ∈ es, lookupA acc e = none) → es.Nodup →
    es.foldl (fun m e => setA m e (f e)) acc =
      acc ++ es.map (fun e => (e, f e)) := by
  induction es with
  | nil => intro acc _ _; simp
  | cons e rest ih =>
    intro acc hfresh hnodup
    have hstep : setA acc e (f e) = acc ++ [(e, f e)] :=
      setA_append acc e (f e) (hfresh e (List.mem_cons_self _ _))
    have hrest : ∀ e2 ∈ rest, lookupA (acc ++ [(e, f e)]) e2 = none := by
      intro e2 he2
      rw [lookupA_append_left_none _ _ _ (hfresh e2 (List.mem_cons_of_mem _ he2))]
      have hne : e ≠ e2 := by
        intro hcontra
        subst hcontra
        exact (List.nodup_cons.mp hnodup).1 he2
      simp [lookupA, hne]
    calc (e :: rest).foldl (fun m x => setA m x (f x)) acc
        = rest.foldl (fun m x => setA m x (f x)) (acc ++ [(e, f e)]) := by
          simp [hstep]
      _ = acc ++ [(e, f e)] ++ rest.map (fun x => (x, f x)) :=
          ih (acc ++ [(e, f e)]) hrest (List.nodup_cons.mp hnodup).2
      _ = acc ++ (e :: rest).map (fun x => (x, f x)) := by simp

theorem rangeInclusive_nodup (a b : Nat) : (rangeInclusive a b).Nodup := by
  unfold rangeInclusive
  exact (List.nodup_range _).map (fun x y h => by omega)

theorem rangeInclusive_length (a b : Nat) :
    (rangeInclusive a b).length = b + 1 - a := by
  simp [rangeInclusive]

/-- C6: the seigniorage recipients snapshot written at genesis is the map
whose keys are exactly the eras INITIAL_ERA_ID through
INITIAL_ERA_ID + auction_delay, giving auction_delay + 1 entries, each
bound to the identical recipients map built from the genesis validators'
bids. -/
theorem initial_seigniorage_recipients_window
    (validators : List (Nat × Bid)) (d : Nat) :
    initialSeigniorageRecipients validators d =
      (rangeInclusive INITIAL_ERA_ID (INITIAL_ERA_ID + d)).map
        (fun e => (e, buildRecipients validators)) ∧
    (initialSeigniorageRecipients validators d).map Prod.fst =
      rangeInclusive INITIAL_ERA_ID (INITIAL_ERA_ID + d) ∧
    (initialSeigniorageRecipients validators d).length = d + 1 ∧
    (∀ kv, kv ∈ initialSeigniorageRecipients validators d →
      kv.2 = buildRecipients validators) := by
  have hmain : initialSeigniorageRecipients validators d =
      (rangeInclusive INITIAL_ERA_ID (INITIAL_ERA_ID + d)).map
        (fun e => (e, buildRecipients validators)) := by
    unfold initialSeigniorageRecipients
    have := foldl_setA_fresh (fun _ => buildRecipients validators)
      (rangeInclusive INITIAL_ERA_ID (INITIAL_ERA_ID + d)) []
      (by intro e he; rfl) (rangeInclusive_nodup _ _)
    simpa using this
  refine ⟨hmain, ?_, ?_, ?_⟩
  · rw [hmain, List.map_map]
    have hid : (Prod.fst ∘ fun e : Nat => (e, buildRecipients validators)) =
        (id : Nat → Nat) := rfl
    rw [hid, List.map_id]
  · rw [hmain]
    simp [rangeInclusive, INITIAL_ERA_ID]
  · intro kv hkv
    rw [hmain] at hkv
    simp only [List.mem_map] at hkv
    obtain ⟨e, _, he⟩ := hkv
    rw [← he]

/-- Witness for C6 with one validator and auction delay 1: the snapshot has
exactly eras 0 and 1, and the entry at era 0 carries the recipients map. -/
theorem initial_seigniorage_recipients_window_witness :
    (initialSeigniorageRecipients [(3, ⟨50, 250, 0, 0⟩)] 1).map Prod.fst =
      [0, 1] ∧
    (initialSeigniorageRecipients [(3, ⟨50, 250, 0, 0⟩)] 1).length = 2 ∧
    (0, [(3, (⟨250, 0, []⟩ : SeigniorageRecipient))]) ∈
      initialSeigniorageRecipients [(3, ⟨50, 250, 0, 0⟩)] 1 ∧
    [(3, (⟨250, 0, []⟩ : SeigniorageRecipient))] =
      buildRecipients [(3, ⟨50, 250, 0, 0⟩)] := by
  refine ⟨?_, (initial_seigniorage_recipients_window [(3, ⟨50, 250, 0, 0⟩)] 1).2.2.1,
    by decide, ?_⟩
  · have h := (initial_seigniorage_recipients_window [(3, ⟨50, 250, 0, 0⟩)] 1).2.1
    rw [h]
    decide
  · exact ((initial_seigniorage_recipients_window [(3, ⟨50, 250, 0, 0⟩)] 1).2.2.2
      (0, [(⟨3, ⟨250, 0, []⟩⟩ : Nat × SeigniorageRecipient)]) (by decide))

end Genesis

namespace Genesis

/-- Modelled from the spec: a collision-resistant hash over a pair,
embedded as the injective pairing on naturals. -/
def hash2 (a b : Nat) : Nat := Nat.pair a b

/-- Modelled from the spec: the hash of a single value (tagged to stay
disjoint from pair hashes). -/
def hash1 (a : Nat) : Nat := Nat.pair a 0

/-- Phase tag for system execution. -/
def PHASE_SYSTEM : Nat := 0

/-- The system account address (all-zero AccountHash), embedded as 0. -/
def SYSTEM_ACCOUNT_ADDR : Nat := 0

/-- Modelled from the spec: a deterministic address generator; each draw is
the hash of the generator's seed and a running counter. -/
structure AddressGenerator where
  seed : Nat
  counter : Nat
deriving DecidableEq, Repr

def AddressGenerator.next (g : AddressGenerator) : Nat × AddressGenerator :=
  (hash2 g.seed g.counter, ⟨g.seed, g.counter + 1⟩)

/-- Modelled from the spec: the per-deploy address generators seeded by
hash(deploy_hash || phase); URef ids and hash addresses come from separate
streams derived from that seed. -/
structure AddressGenerators where
  uref : AddressGenerator
  hashAddr : AddressGenerator
deriving DecidableEq, Repr

def AddressGenerators.create (deployHash phase : Nat) : AddressGenerators :=
  ⟨⟨hash2 (hash2 deployHash phase) 0, 0⟩, ⟨hash2 (hash2 deployHash phase) 1, 0⟩⟩

/-- A genesis account: its address, optional public key, initial balance
and bonded amount. -/
structure GenesisAccount where
  accountHash : Nat
  publicKey : Option Nat
  balance : Nat
  bondedAmount : Nat
deriving DecidableEq, Repr

/-- A genesis validator has a public key and a non-zero bonded amount. -/
def GenesisAccount.isGenesisValidator (a : GenesisAccount) : Bool :=
  a.publicKey.isSome && decide (a.bondedAmount ≠ 0)

/-- The synthetic system account appended by create_purses (zero balance,
zero bond). -/
def systemGenesisAccount : GenesisAccount :=
  ⟨SYSTEM_ACCOUNT_ADDR, none, 0, 0⟩

/-- The recognized genesis configuration options. -/
structure ExecConfig where
  accounts : List GenesisAccount
  validatorSlots : Nat
  auctionDelay : Nat
  lockedFundsPeriod : Nat
  roundSeigniorageRateNumer : Nat
  roundSeigniorageRateDenom : Nat
  unbondingDelay : Nat
  wasmlessTransferCost : Nat
deriving DecidableEq, Repr

/-- Keys written by the installer. -/
inductive GKey where
  | account (h : Nat)
  | hash (h : Nat)
  | uref (u : Nat)
  | balance (u : Nat)
deriving DecidableEq, Repr

/-- Values written by the installer (contract bodies and CLValues reduced
to the fields the claims observe). -/
inductive GWrite where
  | account (mainPurse : Nat)
  | contractWasm
  | contract (packageHash protocolVersion : Nat)
  | contractPackage (accessKey : Nat)
  | clValueNat (n : Nat)
  | clValueRatio (numer denom : Nat)
  | clValueBids (bids : List (Nat × Bid))
  | clValueSnapshot (snap : SeigniorageRecipientsSnapshot)
  | clValueUnbondingPurses
  | balanceAmount (amount : Nat)
deriving DecidableEq, Repr

/-- Purses produced by create_purses, in creation order. -/
inductive GenesisPurse where
  | proofOfStake (purseUref : Nat)
  | delegatorReward (purseUref : Nat)
  | validatorReward (purseUref : Nat)
  | genesisValidator (purseUref publicKey amount : Nat)
  | genesisAccount (purseUref accountHash : Nat)
deriving DecidableEq, Repr

/-- Ambient run-specific environment (system entropy and a wall clock)
that a non-deterministic installer could consult; it is threaded through
every step so the determinism theorem is about the code never reading
it. -/
structure RunEnv where
  entropy : Nat → Nat
  wallClockMillis : Nat

/-- Installer state: the shared address generators and the ordered
operation journal of the tracking copy. -/
structure InstallState where
  gens : AddressGenerators
  ops : List (GKey × GWrite)

def InstallState.write (st : InstallState) (k : GKey) (w : GWrite) :
    InstallState :=
  { st with ops := st.ops ++ [(k, w)] }

def drawUref (st : InstallState) : Nat × InstallState :=
  let (u, g2) := st.gens.uref.next
  (u, { st with gens := { st.gens with uref := g2 } })

def drawHashAddress (st : InstallState) : Nat × InstallState :=
  let (h, g2) := st.gens.hashAddr.next
  (h, { st with gens := { st.gens with hashAddr := g2 } })

/-- GenesisInstaller::store_contract: draws the wasm, contract and package
hash addresses in that order and writes the three records. -/
def storeContractDraws (protocolVersion : Nat) (st : InstallState)
    (accessKey : Nat) : Nat × InstallState :=
  let (wasmHash, st1) := drawHashAddress st
  let (contractHash, st2) := drawHashAddress st1
  let (packageHash, st3) := drawHashAddress st2
  let st4 := st3.write (.hash wasmHash) .contractWasm
  let st5 := st4.write (.hash contractHash) (.contract packageHash protocolVersion)
  let st6 := st5.write (.hash packageHash) (.contractPackage accessKey)
  (contractHash, st6)

/-- Modelled from the spec: one purse creation through the mint draws the
purse URef from the shared uref stream and writes its balance (the mint
call itself runs in the WASM executor, outside the excerpt). -/
def createPurse (_env : RunEnv) (st : InstallState) (amount : Nat) :
    Nat × InstallState :=
  let (u, st1) := drawUref st
  (u, st1.write (.balance u) (.balanceAmount amount))

/-- The genesis validators as collected by create_purses into an ordered
map: public key to bonded amount, sorted ascending. -/
def genesisValidatorsSorted (cfg : ExecConfig) : List (Nat × Nat) :=
  cfg.accounts.foldl
    (fun m a =>
      if a.isGenesisValidator then
        insertSortedA m (a.publicKey.getD 0) a.bondedAmount
      else m) []

/-- GenesisInstaller::create_purses: the proof-of-stake, delegator-reward
and validator-reward purses, then one purse per genesis validator in key
order, then one purse per genesis account (config order, system account
appended last). -/
def createPurses (cfg : ExecConfig) (env : RunEnv) (st : InstallState) :
    List GenesisPurse × InstallState :=
  let (u1, st1) := createPurse env st 0
  let (u2, st2) := createPurse env st1 0
  let (u3, st3) := createPurse env st2 0
  let base := [GenesisPurse.proofOfStake u1, GenesisPurse.delegatorReward u2,
    GenesisPurse.validatorReward u3]
  let vp := (genesisValidatorsSorted cfg).foldl
    (fun acc kv =>
      let (u, s2) := createPurse env acc.2 kv.2
      (acc.1 ++ [GenesisPurse.genesisValidator u kv.1 kv.2], s2))
    (([] : List GenesisPurse), st3)
  let ap := (cfg.accounts ++ [systemGenesisAccount]).foldl
    (fun acc a =>
      let (u, s2) := createPurse env acc.2 a.balance
      (acc.1 ++ [GenesisPurse.genesisAccount u a.accountHash], s2))
    (([] : List GenesisPurse), vp.2)
  (base ++ vp.1 ++ ap.1, ap.2)

/-- GenesisInstaller::create_mint: the access key, the round seigniorage
rate URef, the total-supply URef, the contract store, then all genesis
purses. -/
def createMint (cfg : ExecConfig) (protocolVersion : Nat) (env : RunEnv)
    (st : InstallState) : Nat × List GenesisPurse × InstallState :=
  let (accessKey, st1) := drawUref st
  let (rateUref, st2) := drawUref st1
  let st3 := st2.write (.uref rateUref)
    (.clValueRatio cfg.roundSeigniorageRateNumer cfg.roundSeigniorageRateDenom)
  let (supplyUref, st4) := drawUref st3
  let st5 := st4.write (.uref supplyUref) (.clValueNat 0)
  let (mintHash, st6) := storeContractDraws protocolVersion st5 accessKey
  let (purses, st7) := createPurses cfg env st6
  (mintHash, purses, st7)

/-- GenesisInstaller::create_proof_of_stake: the access key and the
contract store (its named key reuses the proof-of-stake purse). -/
def createProofOfStake (protocolVersion : Nat) (_env : RunEnv)
    (st : InstallState) : Nat × InstallState :=
  let (accessKey, st1) := drawUref st
  storeContractDraws protocolVersion st1 accessKey

/-- GenesisInstaller::create_auction: the bids built from the genesis
validator purses, the era id, snapshot, bids, unbonding purses, validator
slots, auction delay, locked funds period and unbonding delay URefs in
that order, then the access key and the contract store. -/
def createAuction (cfg : ExecConfig) (protocolVersion : Nat)
    (purses : List GenesisPurse) (_env : RunEnv) (st : InstallState) :
    Nat × InstallState :=
  let bids := purses.foldl
    (fun m p =>
      match p with
      | .genesisValidator u pk amount =>
        insertSortedA m pk (Bid.locked u amount cfg.lockedFundsPeriod)
      | _ => m) []
  let snapshot := initialSeigniorageRecipients bids cfg.auctionDelay
  let (eraIdUref, st1) := drawUref st
  let st2 := st1.write (.uref eraIdUref) (.clValueNat INITIAL_ERA_ID)
  let (snapUref, st3) := drawUref st2
  let st4 := st3.write (.uref snapUref) (.clValueSnapshot snapshot)
  let (bidsUref, st5) := drawUref st4
  let st6 := st5.write (.uref bidsUref) (.clValueBids bids)
  let (unbondUref, st7) := drawUref st6
  let st8 := st7.write (.uref unbondUref) .clValueUnbondingPurses
  let (slotsUref, st9) := drawUref st8
  let st10 := st9.write (.uref slotsUref) (.clValueNat cfg.validatorSlots)
  let (delayUref, st11) := drawUref st10
  let st12 := st11.write (.uref delayUref) (.clValueNat cfg.auctionDelay)
  let (lockedUref, st13) := drawUref st12
  let st14 := st13.write (.uref lockedUref) (.clValueNat cfg.lockedFundsPeriod)
  let (unbDelayUref, st15) := drawUref st14
  let st16 := st15.write (.uref unbDelayUref) (.clValueNat cfg.unbondingDelay)
  let (accessKey, st17) := drawUref st16
  storeContractDraws protocolVersion st17 accessKey

/-- GenesisInstaller::create_standard_payment: the access key and the
contract store. -/
def createStandardPayment (protocolVersion : Nat) (_env : RunEnv)
    (st : InstallState) : Nat × InstallState :=
  let (accessKey, st1) := drawUref st
  storeContractDraws protocolVersion st1 accessKey

/-- GenesisInstaller::create_accounts: one account record per genesis
account purse, in purse order. -/
def createAccounts (purses : List GenesisPurse) (st : InstallState) :
    InstallState :=
  purses.foldl
    (fun s p =>
      match p with
      | .genesisAccount u accountHash => s.write (.account accountHash) (.account u)
      | _ => s) st

/-- Modelled from the spec: the full genesis run in its documented order:
the synthetic system account, the mint (with all purses), the
proof-of-stake, auction and standard-payment contracts, and the account
records; the address generators are seeded from
hash(hash(genesis_config_hash) || System). -/
def genesisRun (cfg : ExecConfig) (genesisConfigHash protocolVersion : Nat)
    (env : RunEnv) : List (GKey × GWrite) :=
  let deployHash := hash1 genesisConfigHash
  let gens := AddressGenerators.create deployHash PHASE_SYSTEM
  let st0 : InstallState :=
    ⟨gens, [(GKey.account SYSTEM_ACCOUNT_ADDR, GWrite.account 0)]⟩
  let (_mintHash, purses, st1) := createMint cfg protocolVersion env st0
  let (_posHash, st2) := createProofOfStake protocolVersion env st1
  let (_auctionHash, st3) := createAuction cfg protocolVersion purses env st2
  let (_spHash, st4) := createStandardPayment protocolVersion env st3
  let st5 := createAccounts purses st4
  st5.ops

/-- C2: genesis is deterministic: two runs of the installer on the same
ExecConfig, genesis config hash and protocol version, in arbitrary and
possibly different ambient environments, produce identical operation lists
(same keys in the same order), because every contract hash, package hash
and URef is drawn in fixed order from the address generators seeded by
hash(hash(genesis_config_hash) || System) and nothing consults the
environment; moreover the n-th draw of an address generator is the fixed
value hash2 seed (counter + n). -/
theorem genesis_run_deterministic (cfg : ExecConfig)
    (genesisConfigHash protocolVersion : Nat) (env1 env2 : RunEnv) :
    genesisRun cfg genesisConfigHash protocolVersion env1 =
      genesisRun cfg genesisConfigHash protocolVersion env2 ∧
    (∀ g : AddressGenerator, ∀ n : Nat,
      ((fun gg : AddressGenerator => gg.next.2)^[n] g).next.1 =
        hash2 g.seed (g.counter + n)) := by
  constructor
  · rfl
  · intro g n
    induction n generalizing g with
    | zero => simp [AddressGenerator.next]
    | succ k ih =>
      rw [Function.iterate_succ_apply]
      rw [ih]
      simp only [AddressGenerator.next]
      congr 1
      omega

end Genesis

namespace Highway

/-- A wire vote (wire unit), with the TestContext instantiation: hashes,
ids, consensus values and signatures are naturals and the panorama is a
list of observations encoded as naturals. -/
structure WireVote where
  panorama : List Nat
  creator : Nat
  instanceId : Nat
  value : Option Nat
  seqNumber : Nat
  timestamp : Nat
  roundExp : Nat
  endorsed : List Nat
deriving DecidableEq, Repr

/-- A signed wire vote. -/
structure SignedWireVote where
  wireVote : WireVote
  signature : Nat
deriving DecidableEq, Repr

/-- Evidence of an equivocation: two signed wire votes. -/
inductive Evidence where
  | equivocation (swv0 swv1 : SignedWireVote)
deriving DecidableEq, Repr

/-- The index of the validator accused by the evidence (the first vote's
creator). -/
def Evidence.perpetrator : Evidence → Nat
  | .equivocation swv0 _ => swv0.wireVote.creator

/-- The closed evidence error enum (variants named by the invalid_evidence
test). -/
inductive EvidenceError where
  | equivocationDifferentCreators
  | equivocationDifferentSeqNumbers
  | equivocationInstanceId
  | equivocationSameVote
  | signature
  | unknownPerpetrator
deriving DecidableEq, Repr

/-- Modelled from the spec: Evidence::validate (evidence.rs is outside the
excerpt): the two votes must share a creator and a sequence number, both
must carry the instance id of this Highway instance, they must differ, and
both signatures must verify under the accused validator's key; the check
order follows the invalid_evidence test's expectations. The hash and
signature scheme of the generic Context are passed as functions. -/
def Evidence.validate (hashFn : WireVote → Nat)
    (verify : Nat → Nat → Nat → Bool) (ev : Evidence)
    (vId instanceId : Nat) : Except EvidenceError Unit :=
  match ev with
  | .equivocation swv0 swv1 =>
    if swv0.wireVote.creator ≠ swv1.wireVote.creator then
      .error .equivocationDifferentCreators
    else if swv0.wireVote.seqNumber ≠ swv1.wireVote.seqNumber then
      .error .equivocationDifferentSeqNumbers
    else if swv0.wireVote.instanceId ≠ instanceId ∨
        swv1.wireVote.instanceId ≠ instanceId then
      .error .equivocationInstanceId
    else if swv0 = swv1 then
      .error .equivocationSameVote
    else if ¬ (verify (hashFn swv0.wireVote) vId swv0.signature = true ∧
        verify (hashFn swv1.wireVote) vId swv1.signature = true) then
      .error .signature
    else .ok ()

/-- The Evidence arm of Highway::do_pre_validate_vertex: the perpetrator
index must map to a validator id, then the evidence is validated against
that id and the instance id. -/
def preValidateEvidence (hashFn : WireVote → Nat)
    (verify : Nat → Nat → Nat → Bool) (validators : List Nat)
    (instanceId : Nat) (ev : Evidence) : Except EvidenceError Unit :=
  match validators.get? ev.perpetrator with
  | none => .error .unknownPerpetrator
  | some vId => Evidence.validate hashFn verify ev vId instanceId

end Highway

namespace Highway

theorem validate_ok_iff (hashFn : WireVote → Nat)
    (verify : Nat → Nat → Nat → Bool) (swv0 swv1 : SignedWireVote)
    (vId instanceId : Nat) :
    Evidence.validate hashFn verify (.equivocation swv0 swv1) vId instanceId =
        .ok () ↔
      (swv0.wireVote.creator = swv1.wireVote.creator ∧
       swv0.wireVote.seqNumber = swv1.wireVote.seqNumber ∧
       swv0.wireVote.instanceId = instanceId ∧
       swv1.wireVote.instanceId = instanceId ∧
       swv0 ≠ swv1 ∧
       verify (hashFn swv0.wireVote) vId swv0.signature = true ∧
       verify (hashFn swv1.wireVote) vId swv1.signature = true) := by
  unfold Evidence.validate
  dsimp only
  by_cases h1 : swv0.wireVote.creator ≠ swv1.wireVote.creator
  · rw [if_pos h1]
    simp only [reduceCtorEq, false_iff]
    tauto
  · rw [if_neg h1]
    by_cases h2 : swv0.wireVote.seqNumber ≠ swv1.wireVote.seqNumber
    · rw [if_pos h2]
      simp only [reduceCtorEq, false_iff]
      tauto
    · rw [if_neg h2]
      by_cases h3 : swv0.wireVote.instanceId ≠ instanceId ∨
          swv1.wireVote.instanceId ≠ instanceId
      · rw [if_pos h3]
        simp only [reduceCtorEq, false_iff]
        tauto
      · rw [if_neg h3]
        by_cases h4 : swv0 = swv1
        · rw [if_pos h4]
          simp only [reduceCtorEq, false_iff]
          tauto
        · rw [if_neg h4]
          by_cases h5 : ¬ (verify (hashFn swv0.wireVote) vId swv0.signature = true ∧
              verify (hashFn swv1.wireVote) vId swv1.signature = true)
          · rw [if_pos h5]
            simp only [reduceCtorEq, false_iff]
            tauto
          · rw [if_neg h5]
            push_neg at h1 h2 h3 h5
            exact iff_of_true rfl ⟨h1, h2, h3.1, h3.2, h4, h5.1, h5.2⟩

/-- C3: pre-validation of an Evidence vertex succeeds exactly when the two
signed wire votes share a creator that maps to a known validator id, share
a sequence number, both carry this instance's id, differ in content, and
both signatures verify under the creator's key; identical votes, different
creators, different sequence numbers, a foreign instance id, or an invalid
signature are each rejected with the corresponding EvidenceError. -/
theorem evidence_pre_validation (hashFn : WireVote → Nat)
    (verify : Nat → Nat → Nat → Bool) (validators : List Nat)
    (instanceId : Nat) (swv0 swv1 : SignedWireVote) :
    (preValidateEvidence hashFn verify validators instanceId
        (.equivocation swv0 swv1) = .ok () ↔
      (swv0.wireVote.creator = swv1.wireVote.creator ∧
       swv0.wireVote.seqNumber = swv1.wireVote.seqNumber ∧
       swv0.wireVote.instanceId = instanceId ∧
       swv1.wireVote.instanceId = instanceId ∧
       swv0 ≠ swv1 ∧
       (∃ vId, validators.get? swv0.wireVote.creator = some vId ∧
         verify (hashFn swv0.wireVote) vId swv0.signature = true ∧
         verify (hashFn swv1.wireVote) vId swv1.signature = true))) ∧
    (∀ vId, validators.get? swv0.wireVote.creator = some vId →
      swv0.wireVote.instanceId = instanceId → swv0 = swv1 →
      preValidateEvidence hashFn verify validators instanceId
        (.equivocation swv0 swv1) = .error .equivocationSameVote) ∧
    (swv0.wireVote.creator ≠ swv1.wireVote.creator →
      (validators.get? swv0.wireVote.creator).isSome →
      preValidateEvidence hashFn verify validators instanceId
        (.equivocation swv0 swv1) = .error .equivocationDifferentCreators) ∧
    (swv0.wireVote.creator = swv1.wireVote.creator →
      swv0.wireVote.seqNumber ≠ swv1.wireVote.seqNumber →
      (validators.get? swv0.wireVote.creator).isSome →
      preValidateEvidence hashFn verify validators instanceId
        (.equivocation swv0 swv1) = .error .equivocationDifferentSeqNumbers) ∧
    (swv0.wireVote.creator = swv1.wireVote.creator →
      swv0.wireVote.seqNumber = swv1.wireVote.seqNumber →
      (swv0.wireVote.instanceId ≠ instanceId ∨
        swv1.wireVote.instanceId ≠ instanceId) →
      (validators.get? swv0.wireVote.creator).isSome →
      preValidateEvidence hashFn verify validators instanceId
        (.equivocation swv0 swv1) = .error .equivocationInstanceId) ∧
    (∀ vId, validators.get? swv0.wireVote.creator = some vId →
      swv0.wireVote.creator = swv1.wireVote.creator →
      swv0.wireVote.seqNumber = swv1.wireVote.seqNumber →
      swv0.wireVote.instanceId = instanceId →
      swv1.wireVote.instanceId = instanceId →
      swv0 ≠ swv1 →
      ¬ (verify (hashFn swv0.wireVote) vId swv0.signature = true ∧
        verify (hashFn swv1.wireVote) vId swv1.signature = true) →
      preValidateEvidence hashFn verify validators instanceId
        (.equivocation swv0 swv1) = .error .signature) := by
  have hperp : Evidence.perpetrator (.equivocation swv0 swv1) =
      swv0.wireVote.creator := rfl
  refine ⟨?_, ?_, ?_, ?_, ?_, ?_⟩
  · unfold preValidateEvidence
    rw [hperp]
    cases hv : validators.get? swv0.wireVote.creator with
    | none =>
      dsimp only
      simp only [reduceCtorEq, false_iff]
      intro hcontra
      obtain ⟨_, _, _, _, _, vId, hvid, _⟩ := hcontra
      simp at hvid
    | some vId =>
      dsimp only
      rw [validate_ok_iff]
      constructor
      · intro ⟨a1, a2, a3, a4, a5, a6, a7⟩
        exact ⟨a1, a2, a3, a4, a5, vId, rfl, a6, a7⟩
      · intro ⟨a1, a2, a3, a4, a5, vId2, hvid, a6, a7⟩
        cases hvid
        exact ⟨a1, a2, a3, a4, a5, a6, a7⟩
  · intro vId hv hinst hs
    subst hs
    unfold preValidateEvidence
    rw [hperp, hv]
    dsimp only
    unfold Evidence.validate
    dsimp only
    rw [if_neg (by simp), if_neg (by simp), if_neg (by simp [hinst]),
      if_pos rfl]
  · intro hne hsome
    obtain ⟨vId, hv⟩ := Option.isSome_iff_exists.mp hsome
    unfold preValidateEvidence
    rw [hperp, hv]
    dsimp only
    unfold Evidence.validate
    dsimp only
    rw [if_pos hne]
  · intro hc hseq hsome
    obtain ⟨vId, hv⟩ := Option.isSome_iff_exists.mp hsome
    unfold preValidateEvidence
    rw [hperp, hv]
    dsimp only
    unfold Evidence.validate
    dsimp only
    rw [if_neg (by simp [hc]), if_pos hseq]
  · intro hc hseq hinst hsome
    obtain ⟨vId, hv⟩ := Option.isSome_iff_exists.mp hsome
    unfold preValidateEvidence
    rw [hperp, hv]
    dsimp only
    unfold Evidence.validate
    dsimp only
    rw [if_neg (by simp [hc]), if_neg (by simp [hseq]), if_pos hinst]
  · intro vId hv hc hseq hi0 hi1 hne hver
    unfold preValidateEvidence
    rw [hperp, hv]
    dsimp only
    unfold Evidence.validate
    dsimp only
    rw [if_neg (by simp [hc]), if_neg (by simp [hseq]),
      if_neg (by simp [hi0, hi1]), if_neg hne, if_pos hver]

/-- Witness for C3: with validator ids 10, 11, 12, a hash that reads the
instance id and TestContext-style signatures sig = hash + id, two votes by
validator 2 with the same sequence number and different values are valid
evidence, while the identical pair is rejected as EquivocationSameVote. -/
theorem evidence_pre_validation_witness :
    preValidateEvidence (fun wv => wv.instanceId)
        (fun h v s => decide (s = h + v)) [10, 11, 12] 1
        (.equivocation ⟨⟨[], 2, 1, some 0, 0, 0, 4, []⟩, 13⟩
          ⟨⟨[], 2, 1, some 5, 0, 0, 4, []⟩, 13⟩) = .ok () ∧
    preValidateEvidence (fun wv => wv.instanceId)
        (fun h v s => decide (s = h + v)) [10, 11, 12] 1
        (.equivocation ⟨⟨[], 2, 1, some 0, 0, 0, 4, []⟩, 13⟩
          ⟨⟨[], 2, 1, some 0, 0, 0, 4, []⟩, 13⟩) =
      .error .equivocationSameVote := by
  constructor
  · exact (evidence_pre_validation (fun wv => wv.instanceId)
      (fun h v s => decide (s = h + v)) [10, 11, 12] 1
      ⟨⟨[], 2, 1, some 0, 0, 0, 4, []⟩, 13⟩
      ⟨⟨[], 2, 1, some 5, 0, 0, 4, []⟩, 13⟩).1.mpr
      ⟨rfl, rfl, rfl, rfl, by decide, 12, rfl, by decide, by decide⟩
  · exact (evidence_pre_validation (fun wv => wv.instanceId)
      (fun h v s => decide (s = h + v)) [10, 11, 12] 1
      ⟨⟨[], 2, 1, some 0, 0, 0, 4, []⟩, 13⟩
      ⟨⟨[], 2, 1, some 0, 0, 0, 4, []⟩, 13⟩).2.1 12 rfl rfl rfl

end Highway

namespace Highway

/-- A vertex: a vote, evidence, or an endorsement bundle. -/
structure Endorsements where
  voteHash : Nat
  endorsers : List (Nat × Nat)
deriving DecidableEq, Repr

inductive Vertex where
  | vote (swv : SignedWireVote)
  | evidence (ev : Evidence)
  | endorsements (e : Endorsements)
deriving DecidableEq, Repr

/-- Effects an active validator can produce. -/
inductive Effect where
  | newVertex (v : Vertex)
  | weEquivocated (ev : Evidence)
  | scheduleTimer (t : Nat)
  | requestNewBlock (b : Nat)
deriving DecidableEq, Repr

/-- Modelled from the spec: the abstract protocol state (state/mod.rs is
outside the excerpt): the stored votes keyed by hash, direct evidence per
validator index, indirectly-marked faulty validators, and the endorsers
recorded per vote hash. -/
structure ProtoState where
  votes : List (Nat × SignedWireVote)
  evidence : List (Nat × Evidence)
  faulty : List Nat
  endorsements : List (Nat × List Nat)
deriving DecidableEq, Repr

def ProtoState.hasVote (s : ProtoState) (h : Nat) : Bool :=
  (lookupA s.votes h).isSome

def ProtoState.hasEvidence (s : ProtoState) (idx : Nat) : Bool :=
  (lookupA s.evidence idx).isSome

def ProtoState.isFaulty (s : ProtoState) (idx : Nat) : Bool :=
  s.hasEvidence idx || s.faulty.contains idx

/-- Modelled from the spec: storing a valid vote indexes it under its
hash. -/
def ProtoState.addValidVote (hashFn : WireVote → Nat) (s : ProtoState)
    (swv : SignedWireVote) : ProtoState :=
  { s with votes := setA s.votes (hashFn swv.wireVote) swv }

/-- Modelled from the spec: adding evidence records it against the
perpetrator and reports whether it is the first direct evidence. -/
def ProtoState.addEvidence (s : ProtoState) (ev : Evidence) :
    Bool × ProtoState :=
  if s.hasEvidence ev.perpetrator then (false, s)
  else (true, { s with evidence := setA s.evidence ev.perpetrator ev })

/-- Modelled from the spec: endorsements for a vote are merged into the
recorded endorser set. -/
def ProtoState.addEndorsements (s : ProtoState) (e : Endorsements) :
    ProtoState :=
  let old := (lookupA s.endorsements e.voteHash).getD []
  let merged := old ++ (e.endorsers.map Prod.fst).filter (fun i => ! old.contains i)
  { s with endorsements := setA s.endorsements e.voteHash merged }

def ProtoState.isEndorsed (s : ProtoState) (h : Nat) : Bool :=
  (lookupA s.endorsements h).isSome

def ProtoState.hasAllEndorsements (s : ProtoState) (h : Nat)
    (ids : List Nat) : Bool :=
  ids.all (fun i => ((lookupA s.endorsements h).getD []).contains i)

/-- Modelled from the spec: the behavior of an active validator (the
ActiveValidator implementation is outside the excerpt), given as the
effect lists it returns for each entry point. -/
structure ActiveValidator where
  handleTimerE : Nat → ProtoState → Nat → List Effect
  proposeE : Nat → Nat → ProtoState → Nat → List Effect
  onNewVoteE : Nat → Nat → ProtoState → Nat → List Effect
  onNewEvidenceE : Evidence → ProtoState → List Effect

/-- A Highway instance: the instance id, the validator ids by index, the
protocol state and the optional active validator. -/
structure Highway where
  instanceId : Nat
  validators : List Nat
  state : ProtoState
  activeValidator : Option ActiveValidator

/-- Highway::has_vertex: a vote vertex is present when its hash is stored,
evidence when the perpetrator already has direct evidence, endorsements
when the vote is endorsed or all the bundled endorsers are recorded. -/
def hasVertex (hashFn : WireVote → Nat) (hw : Highway) (v : Vertex) : Bool :=
  match v with
  | .vote swv => hw.state.hasVote (hashFn swv.wireVote)
  | .evidence ev => hw.state.hasEvidence ev.perpetrator
  | .endorsements e =>
    hw.state.isEndorsed e.voteHash ||
      hw.state.hasAllEndorsements e.voteHash (e.endorsers.map Prod.fst)

mutual

/-- Highway::map_active_validator with the callback f: applies f when an
active validator is present, processes the produced effects (adding new
vertices, deactivating on WeEquivocated), and returns the nested effects
followed by f's own. The fuel bounds the vote/effect recursion depth. -/
def mapActiveValidatorF (hashFn : WireVote → Nat) :
    Nat → Highway → (ActiveValidator → ProtoState → List Effect) → Nat →
    Option (Highway × List Effect)
  | fuel, hw, f, timestamp =>
    match hw.activeValidator with
    | none => none
    | some av =>
      let effects := f av hw.state
      let pr := processEffectsF hashFn fuel hw effects timestamp
      some (pr.1, pr.2 ++ effects)
termination_by fuel _ _ _ => (fuel, 6, 0)

/-- The effect loop of map_active_validator. -/
def processEffectsF (hashFn : WireVote → Nat) :
    Nat → Highway → List Effect → Nat → Highway × List Effect
  | _, hw, [], _ => (hw, [])
  | fuel, hw, eff :: rest, timestamp =>
    match eff with
    | .newVertex v =>
      let pr := addValidVertexF hashFn fuel hw v timestamp
      let pr2 := processEffectsF hashFn fuel pr.1 rest timestamp
      (pr2.1, pr.2 ++ pr2.2)
    | .weEquivocated _ =>
      processEffectsF hashFn fuel { hw with activeValidator := none } rest
        timestamp
    | .scheduleTimer _ => processEffectsF hashFn fuel hw rest timestamp
    | .requestNewBlock _ => processEffectsF hashFn fuel hw rest timestamp
termination_by fuel _ l _ => (fuel, 5, l.length)

/-- Highway::add_valid_vertex: a vertex already in the state is a no-op
with no effects; otherwise votes, evidence and endorsements are added. -/
def addValidVertexF (hashFn : WireVote → Nat) :
    Nat → Highway → Vertex → Nat → Highway × List Effect
  | fuel, hw, v, now =>
    if hasVertex hashFn hw v then (hw, [])
    else
      match v with
      | .vote swv => addValidVoteF hashFn fuel hw swv now
      | .evidence ev => addEvidenceF hashFn fuel hw ev
      | .endorsements e =>
        ({ hw with state := hw.state.addEndorsements e }, [])
termination_by fuel _ _ _ => (fuel, 4, 0)

/-- Highway::add_valid_vote: stores the vote, reacts to evidence against a
previously honest creator, and notifies the active validator of the new
vote. -/
def addValidVoteF (hashFn : WireVote → Nat) :
    Nat → Highway → SignedWireVote → Nat → Highway × List Effect
  | fuel, hw, swv, now =>
    let voteHash := hashFn swv.wireVote
    let creator := swv.wireVote.creator
    let wasHonest := ! hw.state.isFaulty creator
    let hw2 : Highway :=
      { hw with state := ProtoState.addValidVote hashFn hw.state swv }
    let pr :=
      match lookupA hw2.state.evidence creator with
      | some ev =>
        if wasHonest then onNewEvidenceF hashFn fuel hw2 ev else (hw2, [])
      | none => (hw2, [])
    let pr2 := onNewVoteF hashFn fuel pr.1 voteHash now
    (pr2.1, pr.2 ++ pr2.2)
termination_by fuel _ _ _ => (fuel, 3, 0)

/-- Highway::add_evidence: adds the evidence to the state and, when it is
the first equivocation by the creator, reacts to it. -/
def addEvidenceF (hashFn : WireVote → Nat) :
    Nat → Highway → Evidence → Highway × List Effect
  | fuel, hw, ev =>
    let pr := hw.state.addEvidence ev
    let hw2 : Highway := { hw with state := pr.2 }
    if pr.1 then onNewEvidenceF hashFn fuel hw2 ev else (hw2, [])

/-- Highway::on_new_evidence: asks the active validator for its reaction,
adds the newly created endorsements to the state, and gossips the
evidence. -/
def onNewEvidenceF (_hashFn : WireVote → Nat) :
    Nat → Highway → Evidence → Highway × List Effect
  | _, hw, ev =>
    let effects :=
      match hw.activeValidator with
      | some av => av.onNewEvidenceE ev hw.state
      | none => []
    let st2 := effects.foldl
      (fun st eff =>
        match eff with
        | .newVertex (.endorsements e) => ProtoState.addEndorsements st e
        | _ => st) hw.state
    ({ hw with state := st2 }, effects ++ [.newVertex (.evidence ev)])

/-- Highway::on_new_vote: notifies the active validator through
map_active_validator; an observer node does nothing. -/
def onNewVoteF (hashFn : WireVote → Nat) :
    Nat → Highway → Nat → Nat → Highway × List Effect
  | 0, hw, _, _ => (hw, [])
  | fuel + 1, hw, vhash, timestamp =>
    match mapActiveValidatorF hashFn fuel hw
        (fun av st => av.onNewVoteE vhash timestamp st hw.instanceId)
        timestamp with
    | some r => r
    | none => (hw, [])
termination_by fuel _ _ _ => (fuel, 0, 0)

end

/-- Highway::handle_timer: dispatches the timer to the active validator
through map_active_validator; an observer node produces nothing. -/
def handleTimerF (hashFn : WireVote → Nat) (fuel : Nat) (hw : Highway)
    (timestamp : Nat) : Highway × List Effect :=
  match mapActiveValidatorF hashFn fuel hw
      (fun av st => av.handleTimerE timestamp st hw.instanceId) timestamp with
  | some r => r
  | none => (hw, [])

/-- Highway::propose: dispatches a proposal to the active validator
through map_active_validator; a deactivated node produces nothing. -/
def proposeF (hashFn : WireVote → Nat) (fuel : Nat) (hw : Highway)
    (value blockContextTimestamp : Nat) : Highway × List Effect :=
  match mapActiveValidatorF hashFn fuel hw
      (fun av st => av.proposeE value blockContextTimestamp st hw.instanceId)
      blockContextTimestamp with
  | some r => r
  | none => (hw, [])

end Highway

namespace Highway

theorem lookupA_setA_isSome {α : Type} (m : List (Nat × α)) (k : Nat) (v : α)
    (k2 : Nat) (h : (lookupA m k2).isSome = true) :
    (lookupA (setA m k v) k2).isSome = true := by
  by_cases he : k = k2
  · subst he
    rw [lookupA_setA_self]
    rfl
  · rw [lookupA_setA_other _ _ _ _ he]
    exact h

/-- State growth: stored votes, direct evidence, endorsement entries and
recorded endorsers are only ever added, never removed. -/
def stateMono (s s2 : ProtoState) : Prop :=
  (∀ h, (lookupA s.votes h).isSome = true →
    (lookupA s2.votes h).isSome = true) ∧
  (∀ i, (lookupA s.evidence i).isSome = true →
    (lookupA s2.evidence i).isSome = true) ∧
  (∀ h, (lookupA s.endorsements h).isSome = true →
    (lookupA s2.endorsements h).isSome = true) ∧
  (∀ h i, ((lookupA s.endorsements h).getD []).contains i = true →
    ((lookupA s2.endorsements h).getD []).contains i = true)

theorem stateMono_refl (s : ProtoState) : stateMono s s :=
  ⟨fun _ h => h, fun _ h => h, fun _ h => h, fun _ _ h => h⟩

theorem stateMono_trans {a b c : ProtoState} (h1 : stateMono a b)
    (h2 : stateMono b c) : stateMono a c :=
  ⟨fun h hh => h2.1 h (h1.1 h hh),
   fun i hh => h2.2.1 i (h1.2.1 i hh),
   fun h hh => h2.2.2.1 h (h1.2.2.1 h hh),
   fun h i hh => h2.2.2.2 h i (h1.2.2.2 h i hh)⟩

theorem stateMono_addValidVote (hashFn : WireVote → Nat) (s : ProtoState)
    (swv : SignedWireVote) :
    stateMono s (ProtoState.addValidVote hashFn s swv) := by
  refine ⟨?_, fun _ h => h, fun _ h => h, fun _ _ h => h⟩
  intro h hh
  exact lookupA_setA_isSome _ _ _ _ hh

theorem stateMono_addEvidence (s : ProtoState) (ev : Evidence) :
    stateMono s (s.addEvidence ev).2 := by
  unfold ProtoState.addEvidence
  by_cases h : s.hasEvidence ev.perpetrator
  · rw [if_pos h]
    exact stateMono_refl s
  · rw [if_neg h]
    refine ⟨fun _ hh => hh, ?_, fun _ hh => hh, fun _ _ hh => hh⟩
    intro i hh
    exact lookupA_setA_isSome _ _ _ _ hh

theorem stateMono_addEndorsements (s : ProtoState) (e : Endorsements) :
    stateMono s (s.addEndorsements e) := by
  unfold ProtoState.addEndorsements
  refine ⟨fun _ hh => hh, fun _ hh => hh, ?_, ?_⟩
  · intro h hh
    exact lookupA_setA_isSome _ _ _ _ hh
  · intro h i hh
    by_cases he : e.voteHash = h
    · subst he
      rw [lookupA_setA_self]
      simp only [Option.getD_some]
      simp at hh
      simp [hh]
    · rw [lookupA_setA_other _ _ _ _ he]
      exact hh

/-- Instance growth: the protocol state only grows and the active
validator can only be dropped, never installed. -/
def highwayMono (hw hw2 : Highway) : Prop :=
  stateMono hw.state hw2.state ∧
  (hw2.activeValidator.isSome = true → hw.activeValidator.isSome = true)

theorem highwayMono_refl (hw : Highway) : highwayMono hw hw :=
  ⟨stateMono_refl _, fun h => h⟩

theorem highwayMono_trans {a b c : Highway} (h1 : highwayMono a b)
    (h2 : highwayMono b c) : highwayMono a c :=
  ⟨stateMono_trans h1.1 h2.1, fun h => h1.2 (h2.2 h)⟩

theorem stateMono_foldl_endorse (effects : List Effect) :
    ∀ s : ProtoState, stateMono s (effects.foldl
      (fun st eff =>
        match eff with
        | .newVertex (.endorsements e) => ProtoState.addEndorsements st e
        | _ => st) s) := by
  induction effects with
  | nil =>
    intro s
    exact stateMono_refl s
  | cons eff rest ih =>
    intro s
    rw [List.foldl_cons]
    refine stateMono_trans ?_ (ih _)
    cases eff with
    | newVertex v =>
      cases v with
      | endorsements e => exact stateMono_addEndorsements s e
      | vote swv => exact stateMono_refl s
      | evidence ev2 => exact stateMono_refl s
    | weEquivocated ev2 => exact stateMono_refl s
    | scheduleTimer t => exact stateMono_refl s
    | requestNewBlock b => exact stateMono_refl s

theorem onNewEvidenceF_mono (hashFn : WireVote → Nat) (fuel : Nat)
    (hw : Highway) (ev : Evidence) :
    highwayMono hw (onNewEvidenceF hashFn fuel hw ev).1 := by
  unfold onNewEvidenceF
  dsimp only
  exact ⟨stateMono_foldl_endorse _ hw.state, fun h => h⟩

end Highway

namespace Highway

theorem highwayMono_setState (hw : Highway) (s2 : ProtoState)
    (h : stateMono hw.state s2) : highwayMono hw { hw with state := s2 } :=
  ⟨h, fun hh => hh⟩

theorem monoBody (hashFn : WireVote → Nat) (fuel : Nat)
    (hONV : ∀ hw vhash t, highwayMono hw (onNewVoteF hashFn fuel hw vhash t).1) :
    (∀ hw ev, highwayMono hw (addEvidenceF hashFn fuel hw ev).1) ∧
    (∀ hw swv now, highwayMono hw (addValidVoteF hashFn fuel hw swv now).1) ∧
    (∀ hw v now, highwayMono hw (addValidVertexF hashFn fuel hw v now).1) ∧
    (∀ l hw t, highwayMono hw (processEffectsF hashFn fuel hw l t).1) ∧
    (∀ hw f t r, mapActiveValidatorF hashFn fuel hw f t = some r →
      highwayMono hw r.1) := by
  have hAE : ∀ hw ev, highwayMono hw (addEvidenceF hashFn fuel hw ev).1 := by
    intro hw ev
    unfold addEvidenceF
    dsimp only
    by_cases hnew : (hw.state.addEvidence ev).1 = true
    · rw [if_pos hnew]
      exact highwayMono_trans
        (highwayMono_setState hw _ (stateMono_addEvidence hw.state ev))
        (onNewEvidenceF_mono hashFn fuel _ ev)
    · rw [if_neg hnew]
      exact highwayMono_setState hw _ (stateMono_addEvidence hw.state ev)
  have hAVV : ∀ hw swv now, highwayMono hw (addValidVoteF hashFn fuel hw swv now).1 := by
    intro hw swv now
    unfold addValidVoteF
    dsimp only
    have hbase : highwayMono hw
        { hw with state := ProtoState.addValidVote hashFn hw.state swv } :=
      highwayMono_setState hw _ (stateMono_addValidVote hashFn hw.state swv)
    cases hle : lookupA (ProtoState.addValidVote hashFn hw.state swv).evidence
        swv.wireVote.creator with
    | none =>
      dsimp only
      exact highwayMono_trans hbase (hONV _ _ _)
    | some ev =>
      dsimp only
      by_cases hht : (! hw.state.isFaulty swv.wireVote.creator) = true
      · rw [if_pos hht]
        exact highwayMono_trans hbase
          (highwayMono_trans (onNewEvidenceF_mono hashFn fuel _ ev) (hONV _ _ _))
      · rw [if_neg hht]
        dsimp only
        exact highwayMono_trans hbase (hONV _ _ _)
  have hAVX : ∀ hw v now, highwayMono hw (addValidVertexF hashFn fuel hw v now).1 := by
    intro hw v now
    unfold addValidVertexF
    by_cases hh : hasVertex hashFn hw v = true
    · rw [if_pos hh]
      exact highwayMono_refl hw
    · rw [if_neg hh]
      cases v with
      | vote swv => exact hAVV hw swv now
      | evidence ev => exact hAE hw ev
      | endorsements e =>
        exact highwayMono_setState hw _ (stateMono_addEndorsements hw.state e)
  have hPE : ∀ l hw t, highwayMono hw (processEffectsF hashFn fuel hw l t).1 := by
    intro l
    induction l with
    | nil =>
      intro hw t
      unfold processEffectsF
      exact highwayMono_refl hw
    | cons eff rest ih2 =>
      intro hw t
      unfold processEffectsF
      cases eff with
      | newVertex v =>
        dsimp only
        exact highwayMono_trans (hAVX hw v t) (ih2 _ t)
      | weEquivocated ev =>
        dsimp only
        refine highwayMono_trans (⟨stateMono_refl _, ?_⟩ :
          highwayMono hw { hw with activeValidator := none }) (ih2 _ t)
        intro hsome
        simp at hsome
      | scheduleTimer tt =>
        dsimp only
        exact ih2 hw t
      | requestNewBlock b =>
        dsimp only
        exact ih2 hw t
  have hMAV : ∀ hw f t r, mapActiveValidatorF hashFn fuel hw f t = some r →
      highwayMono hw r.1 := by
    intro hw f t r hm
    unfold mapActiveValidatorF at hm
    cases hav : hw.activeValidator with
    | none =>
      rw [hav] at hm
      exact absurd hm (by simp)
    | some av =>
      rw [hav] at hm
      dsimp only at hm
      cases hm
      exact hPE (f av hw.state) hw t
  exact ⟨hAE, hAVV, hAVX, hPE, hMAV⟩

theorem monoAll (hashFn : WireVote → Nat) : ∀ fuel : Nat,
    (∀ hw vhash t, highwayMono hw (onNewVoteF hashFn fuel hw vhash t).1) ∧
    (∀ hw ev, highwayMono hw (addEvidenceF hashFn fuel hw ev).1) ∧
    (∀ hw swv now, highwayMono hw (addValidVoteF hashFn fuel hw swv now).1) ∧
    (∀ hw v now, highwayMono hw (addValidVertexF hashFn fuel hw v now).1) ∧
    (∀ l hw t, highwayMono hw (processEffectsF hashFn fuel hw l t).1) ∧
    (∀ hw f t r, mapActiveValidatorF hashFn fuel hw f t = some r →
      highwayMono hw r.1) := by
  intro fuel
  induction fuel with
  | zero =>
    have hONV : ∀ hw vhash t, highwayMono hw (onNewVoteF hashFn 0 hw vhash t).1 := by
      intro hw vhash t
      unfold onNewVoteF
      exact highwayMono_refl hw
    obtain ⟨a, b, c, d, e⟩ := monoBody hashFn 0 hONV
    exact ⟨hONV, a, b, c, d, e⟩
  | succ k ih =>
    have hONV : ∀ hw vhash t, highwayMono hw (onNewVoteF hashFn (k + 1) hw vhash t).1 := by
      intro hw vhash t
      unfold onNewVoteF
      cases hm : mapActiveValidatorF hashFn k hw
          (fun av st => av.onNewVoteE vhash t st hw.instanceId) t with
      | none =>
        dsimp only
        exact highwayMono_refl hw
      | some r =>
        dsimp only
        exact ih.2.2.2.2.2 hw _ t r hm
    obtain ⟨a, b, c, d, e⟩ := monoBody hashFn (k + 1) hONV
    exact ⟨hONV, a, b, c, d, e⟩

end Highway

namespace Highway

theorem processEffectsF_avNone (hashFn : WireVote → Nat) (fuel : Nat)
    (l : List Effect) (hw : Highway) (t : Nat)
    (h : hw.activeValidator = none) :
    (processEffectsF hashFn fuel hw l t).1.activeValidator = none := by
  have hm := ((monoAll hashFn fuel).2.2.2.2.1 l hw t).2
  cases hres : (processEffectsF hashFn fuel hw l t).1.activeValidator with
  | none => rfl
  | some av =>
    have hs := hm (by rw [hres]; rfl)
    rw [h] at hs
    simp at hs

theorem processEffectsF_deactivates (hashFn : WireVote → Nat) (fuel t : Nat) :
    ∀ l (hw : Highway) (ev : Evidence), Effect.weEquivocated ev ∈ l →
    (processEffectsF hashFn fuel hw l t).1.activeValidator = none := by
  intro l
  induction l with
  | nil =>
    intro hw ev h
    simp at h
  | cons eff rest ih =>
    intro hw ev h
    rw [List.mem_cons] at h
    unfold processEffectsF
    cases eff with
    | newVertex v =>
      dsimp only
      cases h with
      | inl h0 => exact absurd h0 (by simp)
      | inr h0 => exact ih _ ev h0
    | weEquivocated ev2 =>
      dsimp only
      exact processEffectsF_avNone hashFn fuel rest _ t rfl
    | scheduleTimer tt =>
      dsimp only
      cases h with
      | inl h0 => exact absurd h0 (by simp)
      | inr h0 => exact ih hw ev h0
    | requestNewBlock b =>
      dsimp only
      cases h with
      | inl h0 => exact absurd h0 (by simp)
      | inr h0 => exact ih hw ev h0

/-- C7: whenever the active-validator callback dispatched through
map_active_validator (as timer handling, proposing and reacting to a new
unit are) produces a WeEquivocated effect, the instance comes out of the
call with its active validator deactivated; and once deactivated the
instance creates and signs no further vertices in this era: timer
handling, proposing and new-vote reactions all return no effects and
leave the instance unchanged. -/
theorem we_equivocated_deactivates (hashFn : WireVote → Nat) (fuel : Nat)
    (hw : Highway) (f : ActiveValidator → ProtoState → List Effect)
    (t vhash val bt : Nat) (ev : Evidence) :
    (∀ av, hw.activeValidator = some av →
      Effect.weEquivocated ev ∈ f av hw.state →
      ∃ r, mapActiveValidatorF hashFn fuel hw f t = some r ∧
        r.1.activeValidator = none) ∧
    (hw.activeValidator = none →
      handleTimerF hashFn fuel hw t = (hw, []) ∧
      proposeF hashFn fuel hw val bt = (hw, []) ∧
      onNewVoteF hashFn fuel hw vhash t = (hw, []) ∧
      mapActiveValidatorF hashFn fuel hw f t = none) := by
  constructor
  · intro av hav hmem
    unfold mapActiveValidatorF
    rw [hav]
    dsimp only
    exact ⟨_, rfl,
      processEffectsF_deactivates hashFn fuel t (f av hw.state) hw ev hmem⟩
  · intro hav
    have hgen : ∀ (fl : Nat) (g : ActiveValidator → ProtoState → List Effect)
        (tt : Nat), mapActiveValidatorF hashFn fl hw g tt = none := by
      intro fl g tt
      unfold mapActiveValidatorF
      rw [hav]
    refine ⟨?_, ?_, ?_, hgen fuel f t⟩
    · unfold handleTimerF
      rw [hgen fuel _ t]
    · unfold proposeF
      rw [hgen fuel _ bt]
    · cases fuel with
      | zero =>
        unfold onNewVoteF
        rfl
      | succ k =>
        unfold onNewVoteF
        rw [hgen k _ t]

/-- Witness for C7: an active validator whose callback reports a
WeEquivocated effect is deactivated by map_active_validator, and a
deactivated instance returns no effects from timer handling. -/
theorem we_equivocated_deactivates_witness :
    (∃ r, mapActiveValidatorF (fun _ => 0) 3
        ⟨1, [10], ⟨[], [], [], []⟩,
          some ⟨fun _ _ _ => [], fun _ _ _ _ => [], fun _ _ _ _ => [],
            fun _ _ => []⟩⟩
        (fun _ _ => [Effect.weEquivocated
          (.equivocation ⟨⟨[], 0, 1, none, 0, 0, 4, []⟩, 7⟩
            ⟨⟨[], 0, 1, some 2, 0, 0, 4, []⟩, 8⟩)]) 5 = some r ∧
      r.1.activeValidator = none) ∧
    handleTimerF (fun _ => 0) 3 ⟨1, [10], ⟨[], [], [], []⟩, none⟩ 5 =
      (⟨1, [10], ⟨[], [], [], []⟩, none⟩, []) := by
  constructor
  · exact (we_equivocated_deactivates (fun _ => 0) 3
      ⟨1, [10], ⟨[], [], [], []⟩,
        some ⟨fun _ _ _ => [], fun _ _ _ _ => [], fun _ _ _ _ => [],
          fun _ _ => []⟩⟩
      (fun _ _ => [Effect.weEquivocated
        (.equivocation ⟨⟨[], 0, 1, none, 0, 0, 4, []⟩, 7⟩
          ⟨⟨[], 0, 1, some 2, 0, 0, 4, []⟩, 8⟩)]) 5 0 0 0
      (.equivocation ⟨⟨[], 0, 1, none, 0, 0, 4, []⟩, 7⟩
        ⟨⟨[], 0, 1, some 2, 0, 0, 4, []⟩, 8⟩)).1 _ rfl (by simp)
  · exact ((we_equivocated_deactivates (fun _ => 0) 3
      ⟨1, [10], ⟨[], [], [], []⟩, none⟩ (fun _ _ => []) 5 0 0 0
      (.equivocation ⟨⟨[], 0, 1, none, 0, 0, 4, []⟩, 7⟩
        ⟨⟨[], 0, 1, some 2, 0, 0, 4, []⟩, 8⟩)).2 rfl).1

end Highway

namespace Highway

theorem hasVertex_addValidVertexF (hashFn : WireVote → Nat)
    (fuel now : Nat) (hw : Highway) (v : Vertex) :
    hasVertex hashFn (addValidVertexF hashFn fuel hw v now).1 v = true := by
  by_cases hh : hasVertex hashFn hw v = true
  · unfold addValidVertexF
    rw [if_pos hh]
    exact hh
  · unfold addValidVertexF
    rw [if_neg hh]
    cases v with
    | vote swv =>
      unfold addValidVoteF
      dsimp only
      have hbase :
          (lookupA (ProtoState.addValidVote hashFn hw.state swv).votes
            (hashFn swv.wireVote)).isSome = true := by
        unfold ProtoState.addValidVote
        dsimp only
        rw [lookupA_setA_self]
        rfl
      cases hle : lookupA (ProtoState.addValidVote hashFn hw.state swv).evidence
          swv.wireVote.creator with
      | none =>
        dsimp only
        exact ((monoAll hashFn fuel).1
          { hw with state := ProtoState.addValidVote hashFn hw.state swv }
          (hashFn swv.wireVote) now).1.1 _ hbase
      | some ev =>
        dsimp only
        by_cases hht : (! hw.state.isFaulty swv.wireVote.creator) = true
        · rw [if_pos hht]
          have h1 := (onNewEvidenceF_mono hashFn fuel
            { hw with state := ProtoState.addValidVote hashFn hw.state swv } ev).1
          have h2 := ((monoAll hashFn fuel).1
            (onNewEvidenceF hashFn fuel
              { hw with state := ProtoState.addValidVote hashFn hw.state swv } ev).1
            (hashFn swv.wireVote) now).1
          exact (stateMono_trans h1 h2).1 _ hbase
        · rw [if_neg hht]
          dsimp only
          exact ((monoAll hashFn fuel).1
            { hw with state := ProtoState.addValidVote hashFn hw.state swv }
            (hashFn swv.wireVote) now).1.1 _ hbase
    | evidence ev =>
      unfold addEvidenceF
      dsimp only
      have hfalse : ¬ hw.state.hasEvidence ev.perpetrator = true := hh
      have hpr : hw.state.addEvidence ev =
          (true, { hw.state with
            evidence := setA hw.state.evidence ev.perpetrator ev }) := by
        unfold ProtoState.addEvidence
        rw [if_neg hfalse]
      rw [hpr]
      dsimp only
      have hbase :
          (lookupA (setA hw.state.evidence ev.perpetrator ev)
            ev.perpetrator).isSome = true := by
        rw [lookupA_setA_self]
        rfl
      exact (onNewEvidenceF_mono hashFn fuel
        { hw with state := { hw.state with
          evidence := setA hw.state.evidence ev.perpetrator ev } } ev).1.2.1 _ hbase
    | endorsements e =>
      dsimp only
      have hend : (ProtoState.addEndorsements hw.state e).isEndorsed e.voteHash
          = true := by
        unfold ProtoState.addEndorsements ProtoState.isEndorsed
        dsimp only
        rw [lookupA_setA_self]
        rfl
      unfold hasVertex
      dsimp only
      rw [hend]
      rfl

/-- C9: adding a valid vertex is idempotent: when the vertex is already
contained in the state (its vote stored, its evidence's perpetrator
already marked with direct evidence, or its endorsements present),
add_valid_vertex returns no effects and leaves the instance unchanged;
consequently adding the same valid vertex a second time, with any fuel and
timestamp, is a no-op on the state produced by the first add. -/
theorem add_valid_vertex_idempotent (hashFn : WireVote → Nat)
    (fuel fuel2 now now2 : Nat) (hw : Highway) (v : Vertex) :
    (hasVertex hashFn hw v = true →
      addValidVertexF hashFn fuel hw v now = (hw, [])) ∧
    (addValidVertexF hashFn fuel2 (addValidVertexF hashFn fuel hw v now).1 v
        now2 = ((addValidVertexF hashFn fuel hw v now).1, [])) := by
  have hstep : ∀ (fl nw : Nat) (h2 : Highway), hasVertex hashFn h2 v = true →
      addValidVertexF hashFn fl h2 v nw = (h2, []) := by
    intro fl nw h2 hht
    unfold addValidVertexF
    rw [if_pos hht]
  exact ⟨hstep fuel now hw,
    hstep fuel2 now2 _ (hasVertex_addValidVertexF hashFn fuel now hw v)⟩

/-- Witness for C9: an instance that already stores a vote under its hash
ignores a second add of the same vote vertex. -/
theorem add_valid_vertex_idempotent_witness :
    addValidVertexF (fun wv => wv.seqNumber) 4
      ⟨1, [10], ⟨[(3, ⟨⟨[], 0, 1, none, 3, 0, 4, []⟩, 7⟩)], [], [], []⟩, none⟩
      (.vote ⟨⟨[], 0, 1, none, 3, 0, 4, []⟩, 7⟩) 9 =
    (⟨1, [10], ⟨[(3, ⟨⟨[], 0, 1, none, 3, 0, 4, []⟩, 7⟩)], [], [], []⟩, none⟩,
      []) := by
  exact (add_valid_vertex_idempotent (fun wv => wv.seqNumber) 4 4 9 9
    ⟨1, [10], ⟨[(3, ⟨⟨[], 0, 1, none, 3, 0, 4, []⟩, 7⟩)], [], [], []⟩, none⟩
    (.vote ⟨⟨[], 0, 1, none, 3, 0, 4, []⟩, 7⟩)).1 (by rfl)

end Highway
